import Mathlib

/-
Verification of `nemo/collections/nlp/data/language_modeling/megatron/data_samplers.py`.

The Python module defines `BaseMegatronSampler` (configuration validation and
`__len__`), `MegatronPretrainingSampler` (sequential sharding) and
`MegatronPretrainingRandomSampler` (per-epoch shuffled sharding).  We embed the
integer arithmetic over `Int` with Python floor division (`Int.fdiv`) and
Python modulo (`Int.fmod`), generators as functions returning the list of all
yielded batches, and `raise` / `assert` / division by zero as `Except.error`.
-/

namespace DataSamplers

/-- Model of the constructor arguments of `BaseMegatronSampler.__init__`
(`data_samplers.py`, lines 26-35).  All integers are Python `int`, hence `Int`;
`global_batch_size` is `Optional[int]`. -/
structure SamplerConfig where
  total_samples : Int
  consumed_samples : Int
  micro_batch_size : Int
  data_parallel_rank : Int
  data_parallel_size : Int
  drop_last : Bool := true
  global_batch_size : Option Int := none
  pad_samples_to_global_batch_size : Bool := false
deriving Repr, DecidableEq

/-- Derived field `self.micro_batch_times_data_parallel_size =
self.micro_batch_size * data_parallel_size` (line 71). -/
def SamplerConfig.micro_batch_times_data_parallel_size (c : SamplerConfig) : Int :=
  c.micro_batch_size * c.data_parallel_size

/-- Sanity checks of `BaseMegatronSampler.__init__` (lines 37-63), in source
order; each failing check is a Python `RuntimeError`.  On success the sampler
object simply keeps a copy of the parameters, so we return the config. -/
def baseSamplerInit (c : SamplerConfig) : Except String SamplerConfig :=
  if c.total_samples ≤ 0 then
    .error "no sample to consume"
  else if c.consumed_samples ≥ c.total_samples then
    .error "no samples left to consume"
  else if c.micro_batch_size ≤ 0 then
    .error "micro_batch_size size must be greater than 0"
  else if c.data_parallel_size ≤ 0 then
    .error "data parallel size must be greater than 0"
  else if c.data_parallel_rank ≥ c.data_parallel_size then
    .error "data_parallel_rank should be smaller than data size"
  else if (match c.global_batch_size with
           | some g => decide ((g.fmod (c.micro_batch_size * c.data_parallel_size)) ≠ 0)
           | none => false) then
    .error "global_batch_size is not divisible by micro_batch_size x data_parallel_size"
  else if c.pad_samples_to_global_batch_size ∧ c.global_batch_size = none then
    .error "pad_samples_to_global_batch_size can be True only when global_batch_size is set"
  else
    .ok c

/-- Body of `BaseMegatronSampler.__len__` (lines 79-87); Python `//` is floor
division, `Int.fdiv`. -/
def samplerLen (c : SamplerConfig) : Int :=
  let num_available_samples : Int := c.total_samples - c.consumed_samples
  match c.global_batch_size with
  | some g =>
      if c.drop_last then num_available_samples.fdiv g
      else (num_available_samples + g - 1).fdiv g
  | none =>
      (num_available_samples - 1).fdiv c.micro_batch_times_data_parallel_size + 1

/-- Model of Python `lst[s:e]` for `0 ≤ s` (the sampler only slices with
non-negative bounds `start_idx = rank * micro_batch_size`,
`end_idx = start_idx + micro_batch_size`). -/
def pySlice (l : List Int) (s e : Int) : List Int :=
  (l.drop s.toNat).take (e - s).toNat

/-- Model of Python `range(start, stop, step)` for a positive `step`, whose
length is `max 0 (ceil ((stop - start) / step))`. -/
def pyRange (start stop step : Int) : List Int :=
  (List.range (((stop - start) + step - 1).fdiv step).toNat).map
    (fun k : Nat => start + step * (k : Int))

/-- Model of the index list `range(self.consumed_samples, self.total_samples)`
walked by `MegatronPretrainingSampler.__iter__` (line 103). -/
def seqIndices (c : SamplerConfig) : List Int :=
  (List.range (c.total_samples - c.consumed_samples).toNat).map
    (fun i : Nat => c.consumed_samples + (i : Int))

/-- The accumulation loop shared by both generators: walk the index list
appending to buffer `buf`; each time the buffer reaches `n` elements, emit it
and clear the buffer.  Returns the emitted full buffers and the leftover
partial buffer (the source's `batch` variable after the `for` loop). -/
def chunkAcc (n : Nat) (buf : List Int) : List Int → List (List Int) × List Int
  | [] => ([], buf)
  | x :: rest =>
    let buf' := buf ++ [x]
    if buf'.length = n then
      let r := chunkAcc n [] rest
      (buf' :: r.1, r.2)
    else
      chunkAcc n buf' rest

/-- Structural respecification of the full chunks of `chunkAcc n []`:
successive blocks of `n` elements. -/
def chunksOf (n : Nat) (l : List Int) : List (List Int) :=
  if _h : 0 < n ∧ n ≤ l.length then
    l.take n :: chunksOf n (l.drop n)
  else
    []
termination_by l.length
decreasing_by
  simp only [List.length_drop]
  omega

/-- Structural respecification of the leftover buffer of `chunkAcc n []`. -/
def chunkRem (n : Nat) (l : List Int) : List Int :=
  if _h : 0 < n ∧ n ≤ l.length then
    chunkRem n (l.drop n)
  else
    l
termination_by l.length
decreasing_by
  simp only [List.length_drop]
  omega

/-- Slice bounds of `MegatronPretrainingSampler.get_start_end_idx`
(lines 95-98). -/
def get_start_end_idx (c : SamplerConfig) : Int × Int :=
  let start_idx := c.data_parallel_rank * c.micro_batch_size
  let end_idx := start_idx + c.micro_batch_size
  (start_idx, end_idx)

/-- One padded tail batch of the `pad_samples_to_global_batch_size` branch
(lines 113-118): `indices = [batch[j] for j in range(i, min(len(batch), i +
micro_batch_size))]` followed by `num_pad` copies of `-1`.  For `0 ≤ i` the
comprehension is `(batch.drop i).take micro_batch_size`. -/
def padBatch (batch : List Int) (i m : Int) : List Int :=
  let indices := (batch.drop i.toNat).take m.toNat
  indices ++ List.replicate (m - indices.length).toNat (-1)

/-- All batches yielded by `MegatronPretrainingSampler.__iter__`
(lines 100-122): full windows of `micro_batch_times_data_parallel_size`
indices, each sliced to `[start_idx:end_idx]`, then the tail branch
(`drop_last` discards it; with padding, one padded batch per
`i in range(data_parallel_rank, global_batch_size,
micro_batch_times_data_parallel_size)`; otherwise the rank slice of the
partial buffer).  When padding is active, validation guarantees
`global_batch_size` is present, hence `getD 0` is never the fallback. -/
def seqIter (c : SamplerConfig) : List (List Int) :=
  let B := c.micro_batch_times_data_parallel_size
  let se := get_start_end_idx c
  let r := chunkAcc B.toNat [] (seqIndices c)
  let main := r.1.map (fun w => pySlice w se.1 se.2)
  let batch := r.2
  let tailBatches :=
    if batch.length > 0 ∧ c.drop_last = false then
      if c.pad_samples_to_global_batch_size then
        (pyRange c.data_parallel_rank (c.global_batch_size.getD 0) B).map
          (fun i => padBatch batch i c.micro_batch_size)
      else
        [pySlice batch se.1 se.2]
    else
      []
  main ++ tailBatches

/-- The sequential generator assigns no attribute of `self`: iterating it
returns the batches and leaves the sampler state unchanged. -/
def seqIterWithState (c : SamplerConfig) : List (List Int) × SamplerConfig :=
  (seqIter c, c)

/-- `MegatronPretrainingRandomSampler.__init__` (lines 126-150): the base
checks, then `assert pad_samples_to_global_batch_size == False`, then
`self.last_batch_size = self.total_samples % self.micro_batch_times_data_parallel_size`. -/
def randSamplerInit (c : SamplerConfig) : Except String SamplerConfig := do
  let c ← baseSamplerInit c
  if c.pad_samples_to_global_batch_size then
    .error "MegatronPretrainingRandomSampler does not support sample padding"
  else
    .ok c

/-- Field `self.last_batch_size` set by the randomized sampler's constructor
(line 150). -/
def last_batch_size (c : SamplerConfig) : Int :=
  c.total_samples.fmod c.micro_batch_times_data_parallel_size

/-- The `for idx in idx_range` loop of
`MegatronPretrainingRandomSampler.__iter__` (lines 168-179): buffer up to
`micro_batch_size` indices; each full buffer is yielded and bumps
`self.consumed_samples` by `B`; a leftover partial buffer is yielded (without
bumping the counter) exactly when `drop_last` is false.  Returns the yielded
batches and the final `consumed_samples`. -/
def randLoop (m : Nat) (B : Int) (dropLast : Bool) (consumed : Int) (buf : List Int) :
    List Int → List (List Int) × Int
  | [] =>
    if buf.length > 0 ∧ dropLast = false then ([buf], consumed) else ([], consumed)
  | x :: rest =>
    let buf' := buf ++ [x]
    if buf'.length = m then
      let r := randLoop m B dropLast (consumed + B) [] rest
      (buf' :: r.1, r.2)
    else
      randLoop m B dropLast consumed buf' rest

/-- `MegatronPretrainingRandomSampler.__iter__` (lines 152-179), parameterized
by the pseudo-random permutation source: `perm seed n` models
`torch.randperm(n, generator=g).tolist()` after `g.manual_seed(seed)` — a
fixed function of the seed, as torch's generator is deterministic.  Python
raises `ZeroDivisionError` when `active_total_samples = 0` and
`AssertionError` when `current_epoch_samples` is not a multiple of
`micro_batch_times_data_parallel_size`; both are embedded as errors.  On
success, returns the yielded batches and the final `self.consumed_samples`. -/
def randIter (perm : Nat → Nat → List Int) (c : SamplerConfig) :
    Except String (List (List Int) × Int) :=
  let B := c.micro_batch_times_data_parallel_size
  let active_total_samples := c.total_samples - last_batch_size c
  if active_total_samples = 0 then
    .error "ZeroDivisionError"
  else
    let epoch := c.consumed_samples.fdiv active_total_samples
    let current_epoch_samples := c.consumed_samples.fmod active_total_samples
    if current_epoch_samples.fmod B ≠ 0 then
      .error "AssertionError: current_epoch_samples % micro_batch_times_data_parallel_size == 0"
    else
      let bucket_size := (c.total_samples.fdiv B) * c.micro_batch_size
      let bucket_offset := current_epoch_samples.fdiv c.data_parallel_size
      let start_idx := c.data_parallel_rank * bucket_size
      let random_idx := perm epoch.toNat bucket_size.toNat
      let idx_range := (random_idx.drop bucket_offset.toNat).map (fun x => start_idx + x)
      .ok (randLoop c.micro_batch_size.toNat B c.drop_last c.consumed_samples [] idx_range)

/-- The identity stand-in for `torch.randperm`, used to evaluate the
randomized sampler on concrete inputs: it has the right length and is a
permutation of `[0, n)`. -/
def idPerm : Nat → Nat → List Int :=
  fun _ n => (List.range n).map (fun i : Nat => (i : Int))

/-- Validity of a configuration in the sense of the constraint table in §3 of
the specification: all range constraints (including the lower bounds),
divisibility of a present `global_batch_size` by the step unit (a positive
multiple, per the glossary), and padding only with a `global_batch_size`. -/
def ValidConfig (c : SamplerConfig) : Prop :=
  0 < c.total_samples ∧ 0 ≤ c.consumed_samples ∧ c.consumed_samples < c.total_samples ∧
  0 < c.micro_batch_size ∧ 0 < c.data_parallel_size ∧
  0 ≤ c.data_parallel_rank ∧ c.data_parallel_rank < c.data_parallel_size ∧
  (match c.global_batch_size with
   | some g => 0 < g ∧ c.micro_batch_times_data_parallel_size ∣ g
   | none => True) ∧
  (c.pad_samples_to_global_batch_size = true → c.global_batch_size ≠ none)

/-- The list of consecutive integers starting at `a`, of length `n`; the shape
of both `seqIndices` and every window the sequential sampler cuts. -/
def intList (a : Int) (n : Nat) : List Int :=
  (List.range n).map (fun i : Nat => a + (i : Int))

/-- Number of full windows the sequential generator completes. -/
def numFullWindows (c : SamplerConfig) : Nat :=
  (c.total_samples - c.consumed_samples).toNat / c.micro_batch_times_data_parallel_size.toNat

/-- The batch at global position `k` that the sequential sampler emits for
data-parallel rank `r` (empty if the sampler emits fewer than `k+1`
batches). -/
def rankBatch (c : SamplerConfig) (r : Nat) (k : Nat) : List Int :=
  ((seqIter { c with data_parallel_rank := (r : Int) })[k]?).getD []

/-- Local name for `active_total_samples` computed at the top of
`MegatronPretrainingRandomSampler.__iter__` (line 153). -/
def active_total_samples (c : SamplerConfig) : Int :=
  c.total_samples - last_batch_size c

theorem intList_length (a : Int) (n : Nat) : (intList a n).length = n := by
  simp [intList]

theorem intList_succ (a : Int) (n : Nat) :
    intList a (n + 1) = a :: intList (a + 1) n := by
  simp only [intList, List.range_succ_eq_map, List.map_cons, List.map_map]
  congr 1
  · simp
  · apply List.map_congr_left
    intro i _
    simp only [Function.comp_apply]
    push_cast
    ring

theorem intList_drop (a : Int) : ∀ (k n : Nat),
    (intList a n).drop k = intList (a + k) (n - k) := by
  intro k
  induction k generalizing a with
  | zero => intro n; simp
  | succ k ih =>
    intro n
    cases n with
    | zero => simp [intList]
    | succ n =>
      rw [intList_succ, List.drop_succ_cons, ih (a + 1) n]
      congr 1
      · push_cast
        ring
      · omega

theorem intList_take (a : Int) (k n : Nat) :
    (intList a n).take k = intList a (min k n) := by
  rw [intList, ← List.map_take, List.take_range, intList]

theorem mem_intList {x a : Int} {n : Nat} :
    x ∈ intList a n ↔ a ≤ x ∧ x < a + n := by
  constructor
  · intro hx
    simp only [intList, List.mem_map, List.mem_range] at hx
    obtain ⟨i, hi, rfl⟩ := hx
    omega
  · intro ⟨h1, h2⟩
    simp only [intList, List.mem_map, List.mem_range]
    refine ⟨(x - a).toNat, by omega, by omega⟩

theorem intList_toFinset (a : Int) (n : Nat) :
    (intList a n).toFinset = Finset.Ico a (a + n) := by
  ext x
  simp [mem_intList, Finset.mem_Ico]

theorem chunksOf_nil_of_lt {n : Nat} {l : List Int} (h : l.length < n) :
    chunksOf n l = [] := by
  rw [chunksOf, dif_neg]
  omega

theorem chunksOf_cons_of_le {n : Nat} (hn : 0 < n) {l : List Int}
    (h : n ≤ l.length) : chunksOf n l = l.take n :: chunksOf n (l.drop n) := by
  rw [chunksOf, dif_pos ⟨hn, h⟩]

theorem chunkRem_of_lt {n : Nat} {l : List Int} (h : l.length < n) :
    chunkRem n l = l := by
  rw [chunkRem, dif_neg]
  omega

theorem chunkRem_of_le {n : Nat} (hn : 0 < n) {l : List Int}
    (h : n ≤ l.length) : chunkRem n l = chunkRem n (l.drop n) := by
  rw [chunkRem, dif_pos ⟨hn, h⟩]

theorem chunkAcc_eq (n : Nat) (hn : 0 < n) :
    ∀ (l buf : List Int), buf.length < n →
      chunkAcc n buf l = (chunksOf n (buf ++ l), chunkRem n (buf ++ l))
  | [], buf, hb => by
    rw [chunkAcc, List.append_nil, chunksOf_nil_of_lt hb, chunkRem_of_lt hb]
  | x :: rest, buf, hb => by
    rw [chunkAcc]
    simp only []
    by_cases h : (buf ++ [x]).length = n
    · have hlen : buf.length + 1 = n := by simpa using h
      rw [if_pos h, chunkAcc_eq n hn rest [] (by simpa using hn)]
      have hrw : buf ++ x :: rest = (buf ++ [x]) ++ rest := by simp
      rw [hrw]
      have h1 : chunksOf n ((buf ++ [x]) ++ rest) =
          ((buf ++ [x]) ++ rest).take n :: chunksOf n (((buf ++ [x]) ++ rest).drop n) := by
        apply chunksOf_cons_of_le hn
        simp only [List.length_append, List.length_cons, List.length_nil]
        omega
      have h2 : chunkRem n ((buf ++ [x]) ++ rest) =
          chunkRem n (((buf ++ [x]) ++ rest).drop n) := by
        apply chunkRem_of_le hn
        simp only [List.length_append, List.length_cons, List.length_nil]
        omega
      rw [h1, h2, ← h, List.take_left, List.drop_left]
      simp
    · have hlt : (buf ++ [x]).length < n := by
        simp only [List.length_append, List.length_cons, List.length_nil] at h ⊢
        omega
      rw [if_neg h, chunkAcc_eq n hn rest (buf ++ [x]) hlt]
      have hrw : buf ++ x :: rest = (buf ++ [x]) ++ rest := by simp
      rw [hrw]

theorem chunksOf_length (n : Nat) (hn : 0 < n) (l : List Int) :
    (chunksOf n l).length = l.length / n := by
  by_cases h : n ≤ l.length
  · rw [chunksOf_cons_of_le hn h, List.length_cons,
      chunksOf_length n hn (l.drop n), List.length_drop, Nat.div_eq l.length n,
      if_pos ⟨hn, h⟩]
  · rw [chunksOf_nil_of_lt (by omega), List.length_nil, Nat.div_eq l.length n,
      if_neg (by omega)]
termination_by l.length
decreasing_by
  simp only [List.length_drop]
  omega

theorem chunksOf_getElem (n : Nat) (hn : 0 < n) :
    ∀ (k : Nat) (l : List Int), k < l.length / n →
      (chunksOf n l)[k]? = some ((l.drop (n * k)).take n) := by
  intro k
  induction k with
  | zero =>
    intro l hk
    have hle : n ≤ l.length := by
      rcases Nat.lt_or_ge l.length n with h | h
      · rw [Nat.div_eq, if_neg (by omega)] at hk
        omega
      · exact h
    rw [chunksOf_cons_of_le hn hle]
    simp
  | succ k ih =>
    intro l hk
    have hle : n ≤ l.length := by
      rcases Nat.lt_or_ge l.length n with h | h
      · rw [Nat.div_eq, if_neg (by omega)] at hk
        omega
      · exact h
    rw [chunksOf_cons_of_le hn hle]
    have hk' : k < (l.drop n).length / n := by
      rw [List.length_drop]
      rw [Nat.div_eq l.length n, if_pos ⟨hn, hle⟩] at hk
      omega
    rw [List.getElem?_cons_succ, ih (l.drop n) hk', List.drop_drop]
    congr 2
    ring

theorem chunksOf_drop (n : Nat) (hn : 0 < n) :
    ∀ (k : Nat) (l : List Int),
      chunksOf n (l.drop (n * k)) = (chunksOf n l).drop k := by
  intro k
  induction k with
  | zero => intro l; simp
  | succ k ih =>
    intro l
    rcases Nat.lt_or_ge l.length n with h | h
    · have h0 : chunksOf n ([] : List Int) = [] := chunksOf_nil_of_lt (by simpa using hn)
      have hd : l.drop (n * (k + 1)) = [] := by
        apply List.drop_eq_nil_of_le
        have h1 : n ≤ n * (k + 1) := by
          have h2 := Nat.mul_le_mul_left n (show 1 ≤ k + 1 by omega)
          simpa using h2
        exact le_trans (le_of_lt h) h1
      rw [hd, h0, chunksOf_nil_of_lt h, List.drop_nil]
    · rw [chunksOf_cons_of_le hn h, List.drop_succ_cons, ← ih (l.drop n),
        List.drop_drop]
      congr 2
      ring

theorem chunkRem_drop (n : Nat) (hn : 0 < n) :
    ∀ (k : Nat) (l : List Int), k ≤ l.length / n →
      chunkRem n (l.drop (n * k)) = chunkRem n l := by
  intro k
  induction k with
  | zero => intro l _; simp
  | succ k ih =>
    intro l hk
    have hle : n ≤ l.length := by
      rcases Nat.lt_or_ge l.length n with h | h
      · rw [Nat.div_eq, if_neg (by omega)] at hk
        omega
      · exact h
    rw [chunkRem_of_le hn hle]
    have hk' : k ≤ (l.drop n).length / n := by
      rw [List.length_drop]
      rw [Nat.div_eq l.length n, if_pos ⟨hn, hle⟩] at hk
      omega
    rw [← ih (l.drop n) hk', List.drop_drop]
    congr 2
    ring

theorem chunkRem_eq_drop (n : Nat) (hn : 0 < n) (l : List Int) :
    chunkRem n l = l.drop (n * (l.length / n)) := by
  by_cases h : n ≤ l.length
  · rw [chunkRem_of_le hn h, chunkRem_eq_drop n hn (l.drop n), List.drop_drop,
      List.length_drop, Nat.div_eq l.length n, if_pos ⟨hn, h⟩]
    congr 1
    ring
  · rw [chunkRem_of_lt (by omega), Nat.div_eq l.length n, if_neg (by omega)]
    simp
termination_by l.length
decreasing_by
  simp only [List.length_drop]
  omega

theorem chunkRem_length (n : Nat) (hn : 0 < n) (l : List Int) :
    (chunkRem n l).length = l.length % n := by
  rw [chunkRem_eq_drop n hn, List.length_drop]
  have := Nat.div_add_mod l.length n
  have := Nat.mod_lt l.length hn
  omega

theorem chunksOf_mem_length (n : Nat) (hn : 0 < n) (l : List Int) :
    ∀ w ∈ chunksOf n l, w.length = n := by
  intro w hw
  by_cases h : n ≤ l.length
  · rw [chunksOf_cons_of_le hn h] at hw
    rcases List.mem_cons.mp hw with h1 | h1
    · rw [h1, List.length_take]
      omega
    · exact chunksOf_mem_length n hn (l.drop n) w h1
  · rw [chunksOf_nil_of_lt (by omega)] at hw
    cases hw
termination_by l.length
decreasing_by
  simp only [List.length_drop]
  omega

theorem randLoop_eq (m : Nat) (hm : 0 < m) (B : Int) (dl : Bool) :
    ∀ (l buf : List Int) (consumed : Int), buf.length < m →
      randLoop m B dl consumed buf l =
        (chunksOf m (buf ++ l) ++
           (if chunkRem m (buf ++ l) ≠ [] ∧ dl = false then [chunkRem m (buf ++ l)] else []),
         consumed + B * (chunksOf m (buf ++ l)).length)
  | [], buf, consumed, hb => by
    rw [randLoop, List.append_nil, chunksOf_nil_of_lt hb, chunkRem_of_lt hb]
    by_cases h : buf.length > 0 ∧ dl = false
    · rw [if_pos h, if_pos (by
        refine ⟨?_, h.2⟩
        intro hnil
        rw [hnil] at h
        simp at h)]
      simp
    · rw [if_neg h, if_neg (by
        intro hcon
        apply h
        refine ⟨?_, hcon.2⟩
        cases buf with
        | nil => exact absurd rfl hcon.1
        | cons y ys => simp)]
      simp
  | x :: rest, buf, consumed, hb => by
    rw [randLoop]
    simp only []
    have hrw : buf ++ x :: rest = (buf ++ [x]) ++ rest := by simp
    by_cases h : (buf ++ [x]).length = m
    · have hlen : buf.length + 1 = m := by simpa using h
      rw [if_pos h, randLoop_eq m hm B dl rest [] (consumed + B) (by simpa using hm)]
      rw [hrw]
      have h1 : chunksOf m ((buf ++ [x]) ++ rest) =
          ((buf ++ [x]) ++ rest).take m :: chunksOf m (((buf ++ [x]) ++ rest).drop m) := by
        apply chunksOf_cons_of_le hm
        simp only [List.length_append, List.length_cons, List.length_nil]
        omega
      have h2 : chunkRem m ((buf ++ [x]) ++ rest) =
          chunkRem m (((buf ++ [x]) ++ rest).drop m) := by
        apply chunkRem_of_le hm
        simp only [List.length_append, List.length_cons, List.length_nil]
        omega
      rw [h1, h2, ← h, List.take_left, List.drop_left]
      simp only [List.nil_append, List.cons_append, Prod.mk.injEq, List.length_cons]
      refine ⟨trivial, ?_⟩
      push_cast
      ring
    · have hlt : (buf ++ [x]).length < m := by
        simp only [List.length_append, List.length_cons, List.length_nil] at h ⊢
        omega
      rw [if_neg h, randLoop_eq m hm B dl rest (buf ++ [x]) consumed hlt, hrw]

end DataSamplers

namespace DataSamplers

theorem seqIndices_eq_intList (c : SamplerConfig) :
    seqIndices c = intList c.consumed_samples (c.total_samples - c.consumed_samples).toNat :=
  rfl

theorem seqIter_unfold (c : SamplerConfig)
    (hB : 0 < c.micro_batch_times_data_parallel_size.toNat) :
    seqIter c =
      (chunksOf c.micro_batch_times_data_parallel_size.toNat (seqIndices c)).map
          (fun w => pySlice w (c.data_parallel_rank * c.micro_batch_size)
            (c.data_parallel_rank * c.micro_batch_size + c.micro_batch_size)) ++
        (if (chunkRem c.micro_batch_times_data_parallel_size.toNat (seqIndices c)).length > 0
              ∧ c.drop_last = false then
           if c.pad_samples_to_global_batch_size then
             (pyRange c.data_parallel_rank (c.global_batch_size.getD 0)
                 c.micro_batch_times_data_parallel_size).map
               (fun i => padBatch (chunkRem c.micro_batch_times_data_parallel_size.toNat
                   (seqIndices c)) i c.micro_batch_size)
           else
             [pySlice (chunkRem c.micro_batch_times_data_parallel_size.toNat (seqIndices c))
                 (c.data_parallel_rank * c.micro_batch_size)
                 (c.data_parallel_rank * c.micro_batch_size + c.micro_batch_size)]
         else []) := by
  simp only [seqIter, get_start_end_idx]
  rw [chunkAcc_eq _ hB (seqIndices c) [] (by simpa using hB)]
  simp only [List.nil_append]

theorem pySlice_intList (a : Int) (n R M : Nat) (h : R * M + M ≤ n) :
    pySlice (intList a n) ((R : Int) * (M : Int)) ((R : Int) * (M : Int) + (M : Int)) =
      intList (a + ((R * M : Nat) : Int)) M := by
  unfold pySlice
  have h1 : (((R : Int) * (M : Int))).toNat = R * M := by
    rw [← Int.natCast_mul, Int.toNat_natCast]
  have h2 : ((((R : Int) * (M : Int) + (M : Int))) - ((R : Int) * (M : Int))).toNat = M := by
    simp
  rw [h1, h2, intList_drop, intList_take]
  congr 1
  omega

theorem chunksOf_intList_getElem (Bn : Nat) (hB : 0 < Bn) (a : Int) (A k : Nat)
    (hk : k < A / Bn) :
    (chunksOf Bn (intList a A))[k]? = some (intList (a + ((Bn * k : Nat) : Int)) Bn) := by
  rw [chunksOf_getElem Bn hB k (intList a A) (by rw [intList_length]; exact hk),
    intList_drop, intList_take]
  have h3 := (Nat.le_div_iff_mul_le hB).mp (Nat.succ_le_of_lt hk)
  rw [Nat.succ_mul] at h3
  have h4 : Bn * k + Bn ≤ A := by
    rw [Nat.mul_comm Bn k]
    exact h3
  congr 2
  omega

theorem seqIter_getElem_full (c : SamplerConfig)
    (hm : 0 < c.micro_batch_size) (hd : 0 < c.data_parallel_size)
    (hr0 : 0 ≤ c.data_parallel_rank) (hrd : c.data_parallel_rank < c.data_parallel_size)
    (k : Nat) (hk : k < numFullWindows c) :
    (seqIter c)[k]? =
      some (intList (c.consumed_samples
          + c.micro_batch_times_data_parallel_size * (k : Int)
          + c.data_parallel_rank * c.micro_batch_size) c.micro_batch_size.toNat) := by
  obtain ⟨M, hM⟩ := Int.eq_ofNat_of_zero_le hm.le
  obtain ⟨D, hD⟩ := Int.eq_ofNat_of_zero_le hd.le
  obtain ⟨R, hR⟩ := Int.eq_ofNat_of_zero_le hr0
  have hMpos : 0 < M := by rw [hM] at hm; exact_mod_cast hm
  have hDpos : 0 < D := by rw [hD] at hd; exact_mod_cast hd
  have hRD : R < D := by rw [hR, hD] at hrd; exact_mod_cast hrd
  have hBt : c.micro_batch_times_data_parallel_size.toNat = M * D := by
    rw [SamplerConfig.micro_batch_times_data_parallel_size, hM, hD, ← Int.natCast_mul,
      Int.toNat_natCast]
  have hBpos : 0 < M * D := Nat.mul_pos hMpos hDpos
  have hNum : numFullWindows c = (c.total_samples - c.consumed_samples).toNat / (M * D) := by
    rw [numFullWindows, hBt]
  rw [seqIter_unfold c (by rw [hBt]; exact hBpos), seqIndices_eq_intList, hBt]
  have hmainlen :
      ((chunksOf (M * D) (intList c.consumed_samples
          (c.total_samples - c.consumed_samples).toNat)).map
        (fun w => pySlice w (c.data_parallel_rank * c.micro_batch_size)
          (c.data_parallel_rank * c.micro_batch_size + c.micro_batch_size))).length =
      (c.total_samples - c.consumed_samples).toNat / (M * D) := by
    rw [List.length_map, chunksOf_length _ hBpos, intList_length]
  rw [List.getElem?_append_left (by rw [hmainlen, ← hNum]; exact hk), List.getElem?_map,
    chunksOf_intList_getElem (M * D) hBpos _ _ k (by rw [← hNum]; exact hk)]
  have hRM : R * M + M ≤ M * D := by
    have h5 : (R + 1) * M ≤ D * M := Nat.mul_le_mul_right M (by omega)
    rw [Nat.succ_mul] at h5
    rw [Nat.mul_comm M D]
    exact h5
  simp only [Option.map_eq_map, Option.map_some']
  rw [hM, hR, pySlice_intList _ _ _ _ hRM]
  refine congrArg some ?_
  rw [SamplerConfig.micro_batch_times_data_parallel_size, hM, hD, Int.toNat_natCast]
  congr 1

end DataSamplers

namespace DataSamplers

theorem biUnion_Ico_blocks (base : Int) (M : Nat) : ∀ (D : Nat),
    (Finset.range D).biUnion
        (fun r => Finset.Ico (base + (r : Int) * (M : Int))
          (base + (r : Int) * (M : Int) + (M : Int))) =
      Finset.Ico base (base + (D : Int) * (M : Int))
  | 0 => by simp
  | D + 1 => by
    rw [Finset.range_succ, Finset.biUnion_insert, biUnion_Ico_blocks base M D,
      Finset.union_comm,
      Finset.Ico_union_Ico_eq_Ico (le_add_of_nonneg_right (by positivity))
        (le_add_of_nonneg_right (by positivity))]
    congr 1
    push_cast
    ring

theorem Ico_blocks_disjoint_lt (base : Int) (M : Nat) {r1 r2 : Nat} (h : r1 < r2) :
    Disjoint
      (Finset.Ico (base + (r1 : Int) * (M : Int)) (base + (r1 : Int) * (M : Int) + (M : Int)))
      (Finset.Ico (base + (r2 : Int) * (M : Int)) (base + (r2 : Int) * (M : Int) + (M : Int))) := by
  rw [Finset.disjoint_left]
  intro x hx1 hx2
  rw [Finset.mem_Ico] at hx1 hx2
  have hkey : ((r1 : Int) + 1) * (M : Int) ≤ (r2 : Int) * (M : Int) := by
    apply mul_le_mul_of_nonneg_right _ (by positivity)
    exact_mod_cast h
  rw [add_mul, one_mul] at hkey
  have := hx1.2
  have := hx2.1
  omega

theorem Ico_blocks_disjoint (base : Int) (M : Nat) {r1 r2 : Nat} (h : r1 ≠ r2) :
    Disjoint
      (Finset.Ico (base + (r1 : Int) * (M : Int)) (base + (r1 : Int) * (M : Int) + (M : Int)))
      (Finset.Ico (base + (r2 : Int) * (M : Int)) (base + (r2 : Int) * (M : Int) + (M : Int))) := by
  rcases Nat.lt_or_ge r1 r2 with hlt | hge
  · exact Ico_blocks_disjoint_lt base M hlt
  · exact (Ico_blocks_disjoint_lt base M (by omega)).symm

/-- Scenario A of the spec: `total_samples=10, consumed_samples=0,
micro_batch_size=2, data_parallel_rank=0, data_parallel_size=2,
drop_last=True`, sequential. -/
def cfgScenarioA : SamplerConfig :=
  { total_samples := 10, consumed_samples := 0, micro_batch_size := 2,
    data_parallel_rank := 0, data_parallel_size := 2, drop_last := true,
    global_batch_size := none, pad_samples_to_global_batch_size := false }

/-- Scenario B of the spec, unpadded variant: Scenario A with
`total_samples=11, drop_last=False`. -/
def cfgScenarioB : SamplerConfig :=
  { total_samples := 11, consumed_samples := 0, micro_batch_size := 2,
    data_parallel_rank := 0, data_parallel_size := 2, drop_last := false,
    global_batch_size := none, pad_samples_to_global_batch_size := false }

/-- Scenario B of the spec, padded variant: padding enabled with
`global_batch_size=4`. -/
def cfgScenarioBpad : SamplerConfig :=
  { total_samples := 11, consumed_samples := 0, micro_batch_size := 2,
    data_parallel_rank := 0, data_parallel_size := 2, drop_last := false,
    global_batch_size := some 4, pad_samples_to_global_batch_size := true }

/-- Scenario C of the spec: `total_samples=8, micro_batch_size=2,
data_parallel_size=2`, rank 0, randomized. -/
def cfgScenarioC : SamplerConfig :=
  { total_samples := 8, consumed_samples := 0, micro_batch_size := 2,
    data_parallel_rank := 0, data_parallel_size := 2, drop_last := true,
    global_batch_size := none, pad_samples_to_global_batch_size := false }

/-- Claim C1: for every valid configuration with `consumed_samples` a multiple
of `micro_batch_size * data_parallel_size`, for each full window the
sequential generator completes, the union over all ranks in
`[0, data_parallel_size)` of the batch each rank yields for that global step
is the contiguous window of `step_unit` indices at the global step
`consumed_samples / step_unit + k`, and the per-rank slices are pairwise
disjoint. -/
theorem seq_strategy_disjoint_cover (c : SamplerConfig) (hv : ValidConfig c)
    (hmul : c.micro_batch_times_data_parallel_size ∣ c.consumed_samples)
    (k : Nat) (hk : k < numFullWindows c) :
    ((Finset.range c.data_parallel_size.toNat).biUnion
        (fun r => (rankBatch c r k).toFinset) =
      Finset.Ico
        ((c.consumed_samples.fdiv c.micro_batch_times_data_parallel_size + (k : Int)) *
          c.micro_batch_times_data_parallel_size)
        ((c.consumed_samples.fdiv c.micro_batch_times_data_parallel_size + (k : Int) + 1) *
          c.micro_batch_times_data_parallel_size))
    ∧ (∀ r1 r2 : Nat, r1 < c.data_parallel_size.toNat → r2 < c.data_parallel_size.toNat →
        r1 ≠ r2 → Disjoint (rankBatch c r1 k).toFinset (rankBatch c r2 k).toFinset) := by
  obtain ⟨ht, hc0, hct, hm, hd, hr0, hrd, hg, hpd⟩ := hv
  obtain ⟨M, hM⟩ := Int.eq_ofNat_of_zero_le hm.le
  obtain ⟨D, hD⟩ := Int.eq_ofNat_of_zero_le hd.le
  have hBpos : (0 : Int) < c.micro_batch_times_data_parallel_size := by
    rw [SamplerConfig.micro_batch_times_data_parallel_size]
    positivity
  have hbatch : ∀ r : Nat, r < D → (rankBatch c r k).toFinset =
      Finset.Ico
        (c.consumed_samples + c.micro_batch_times_data_parallel_size * (k : Int)
          + (r : Int) * (M : Int))
        (c.consumed_samples + c.micro_batch_times_data_parallel_size * (k : Int)
          + (r : Int) * (M : Int) + (M : Int)) := by
    intro r hr
    have hrd' : ((r : Int)) < c.data_parallel_size := by
      rw [hD]
      exact_mod_cast hr
    rw [rankBatch,
      seqIter_getElem_full { c with data_parallel_rank := (r : Int) } hm hd
        (by positivity) hrd' k hk]
    simp only [Option.getD_some]
    rw [intList_toFinset]
    rw [show ({ c with data_parallel_rank := (r : Int) } :
        SamplerConfig).micro_batch_size = c.micro_batch_size from rfl]
    rw [show ({ c with data_parallel_rank := (r : Int) } :
        SamplerConfig).consumed_samples = c.consumed_samples from rfl]
    rw [show ({ c with data_parallel_rank := (r : Int) } :
          SamplerConfig).micro_batch_times_data_parallel_size =
        c.micro_batch_times_data_parallel_size from rfl]
    rw [hM, Int.toNat_natCast]
  have hDt : c.data_parallel_size.toNat = D := by
    rw [hD, Int.toNat_natCast]
  obtain ⟨q, hq⟩ := hmul
  have hfd : c.consumed_samples.fdiv c.micro_batch_times_data_parallel_size = q := by
    rw [hq, Int.fdiv_eq_ediv _ hBpos.le, Int.mul_ediv_cancel_left q hBpos.ne']
  constructor
  · rw [hDt, Finset.biUnion_congr rfl (fun r hr => hbatch r (Finset.mem_range.mp hr)),
      biUnion_Ico_blocks _ M D, hfd]
    have hMD : (D : Int) * (M : Int) = c.micro_batch_times_data_parallel_size := by
      rw [SamplerConfig.micro_batch_times_data_parallel_size, hM, hD]
      ring
    congr 1
    · rw [hq]
      ring
    · rw [hMD, hq]
      ring
  · intro r1 r2 hr1 hr2 hne
    rw [hDt] at hr1 hr2
    rw [hbatch r1 hr1, hbatch r2 hr2]
    exact Ico_blocks_disjoint _ M hne

end DataSamplers

namespace DataSamplers

/-- Witness for claim C1 at Scenario A's configuration and window 0. -/
theorem seq_strategy_disjoint_cover_witness :
    ((Finset.range cfgScenarioA.data_parallel_size.toNat).biUnion
        (fun r => (rankBatch cfgScenarioA r 0).toFinset) =
      Finset.Ico
        ((cfgScenarioA.consumed_samples.fdiv
            cfgScenarioA.micro_batch_times_data_parallel_size + ((0 : Nat) : Int)) *
          cfgScenarioA.micro_batch_times_data_parallel_size)
        ((cfgScenarioA.consumed_samples.fdiv
            cfgScenarioA.micro_batch_times_data_parallel_size + ((0 : Nat) : Int) + 1) *
          cfgScenarioA.micro_batch_times_data_parallel_size))
    ∧ (∀ r1 r2 : Nat, r1 < cfgScenarioA.data_parallel_size.toNat →
        r2 < cfgScenarioA.data_parallel_size.toNat → r1 ≠ r2 →
        Disjoint (rankBatch cfgScenarioA r1 0).toFinset (rankBatch cfgScenarioA r2 0).toFinset) :=
  seq_strategy_disjoint_cover cfgScenarioA
    ⟨by decide, by decide, by decide, by decide, by decide, by decide, by decide,
      trivial, by decide⟩
    (by decide) 0 (by decide)

end DataSamplers

namespace DataSamplers

/-- Counterexample to claim C8: at Scenario A's configuration the sequential
generator for rank 0 yields `[[0,1],[4,5]]` — it never reaches index 9, since
the partial window `[8,9]` is dropped under `drop_last` — and `__len__`
returns 3, not 5. -/
theorem scenarioA_claim_false :
    seqIter cfgScenarioA = [[0, 1], [4, 5]] ∧ samplerLen cfgScenarioA ≠ 5 := by
  constructor
  · decide
  · decide

/-- Amended claim C8: with Scenario A's configuration, rank 0 yields `[0,1]`
then `[4,5]` while rank 1 consumes `[2,3]` then `[6,7]` from the same windows;
the tail `[8,9]` is dropped and `__len__` returns 3. -/
theorem scenarioA_amended :
    seqIter cfgScenarioA = [[0, 1], [4, 5]] ∧
    seqIter { cfgScenarioA with data_parallel_rank := 1 } = [[2, 3], [6, 7]] ∧
    samplerLen cfgScenarioA = 3 := by
  refine ⟨by decide, by decide, by decide⟩

/-- Counterexample to claim C9: at Scenario B's configuration the tail after
the two full windows is `[8,9,10]`, not `[10]`; rank 0's final batch is
`[8,9]` in the unpadded variant (not `[10]`) and `[8,9]` in the padded
variant (not `[10,-1]`). -/
theorem scenarioB_claim_false :
    (seqIter cfgScenarioB).getLast? = some [8, 9] ∧
    some ([8, 9] : List Int) ≠ some [10] ∧
    (seqIter cfgScenarioBpad).getLast? = some [8, 9] ∧
    some ([8, 9] : List Int) ≠ some [10, -1] := by
  refine ⟨by decide, by decide, by decide, by decide⟩

/-- Amended claim C9: with `total_samples=11` the two full windows cover
indices 0-7 and the remaining tail is `[8,9,10]`; without padding rank 0's
final batch is `[8,9]` and rank 1's is the short batch `[10]`; with padding
and `global_batch_size=4`, rank 0's final batch is `[8,9]` and rank 1's is
`[9,10]`. -/
theorem scenarioB_amended :
    seqIter cfgScenarioB = [[0, 1], [4, 5], [8, 9]] ∧
    seqIter { cfgScenarioB with data_parallel_rank := 1 } = [[2, 3], [6, 7], [10]] ∧
    seqIter cfgScenarioBpad = [[0, 1], [4, 5], [8, 9]] ∧
    seqIter { cfgScenarioBpad with data_parallel_rank := 1 } = [[2, 3], [6, 7], [9, 10]] := by
  refine ⟨by decide, by decide, by decide, by decide⟩

/-- Configuration violating the §3 lower bound `0 ≤ consumed_samples`. -/
def cfgNegConsumed : SamplerConfig :=
  { total_samples := 10, consumed_samples := -3, micro_batch_size := 2,
    data_parallel_rank := 0, data_parallel_size := 2, drop_last := true,
    global_batch_size := none, pad_samples_to_global_batch_size := false }

/-- Configuration violating the §3 lower bound `0 ≤ data_parallel_rank`. -/
def cfgNegRank : SamplerConfig :=
  { total_samples := 10, consumed_samples := 0, micro_batch_size := 2,
    data_parallel_rank := -1, data_parallel_size := 2, drop_last := true,
    global_batch_size := none, pad_samples_to_global_batch_size := false }

/-- Counterexample to claim C3: the constructor accepts a negative
`consumed_samples` and a negative `data_parallel_rank`, although the §3
constraint table demands `0 ≤ consumed_samples` and `0 ≤ data_parallel_rank`;
the code only checks the upper bounds. -/
theorem validation_lower_bounds_not_checked :
    cfgNegConsumed.consumed_samples < 0 ∧ (baseSamplerInit cfgNegConsumed).isOk = true ∧
    cfgNegRank.data_parallel_rank < 0 ∧ (baseSamplerInit cfgNegRank).isOk = true := by
  refine ⟨by decide, by decide, by decide, by decide⟩

/-- Amended claim C3: construction fails with a configuration error exactly
when one of the seven implemented checks fires: `total_samples ≤ 0`,
`consumed_samples ≥ total_samples`, `micro_batch_size ≤ 0`,
`data_parallel_size ≤ 0`, `data_parallel_rank ≥ data_parallel_size`,
a present `global_batch_size` not divisible by
`micro_batch_size * data_parallel_size`, or padding requested while
`global_batch_size` is absent.  The two lower-bound rows of the §3 table
(`0 ≤ consumed_samples`, `0 ≤ data_parallel_rank`) are not enforced.  In
every failing case no sampler object exists, hence zero batches. -/
theorem construction_failure_iff (c : SamplerConfig) :
    (∃ e, baseSamplerInit c = .error e) ↔
      (c.total_samples ≤ 0 ∨ c.consumed_samples ≥ c.total_samples ∨
       c.micro_batch_size ≤ 0 ∨ c.data_parallel_size ≤ 0 ∨
       c.data_parallel_rank ≥ c.data_parallel_size ∨
       (∃ g, c.global_batch_size = some g ∧
          g.fmod (c.micro_batch_size * c.data_parallel_size) ≠ 0) ∨
       (c.pad_samples_to_global_batch_size = true ∧ c.global_batch_size = none)) := by
  unfold baseSamplerInit
  split_ifs with h1 h2 h3 h4 h5 h6 h7
  · exact iff_of_true ⟨_, rfl⟩ (Or.inl h1)
  · exact iff_of_true ⟨_, rfl⟩ (Or.inr (Or.inl h2))
  · exact iff_of_true ⟨_, rfl⟩ (Or.inr (Or.inr (Or.inl h3)))
  · exact iff_of_true ⟨_, rfl⟩ (Or.inr (Or.inr (Or.inr (Or.inl h4))))
  · exact iff_of_true ⟨_, rfl⟩ (Or.inr (Or.inr (Or.inr (Or.inr (Or.inl h5)))))
  · refine iff_of_true ⟨_, rfl⟩ (Or.inr (Or.inr (Or.inr (Or.inr (Or.inr (Or.inl ?_))))))
    revert h6
    cases hgb : c.global_batch_size with
    | none => intro h6; exact absurd h6 (by simp)
    | some g =>
      intro h6
      simp only [decide_eq_true_eq] at h6
      exact ⟨g, rfl, h6⟩
  · refine iff_of_true ⟨_, rfl⟩
      (Or.inr (Or.inr (Or.inr (Or.inr (Or.inr (Or.inr ?_))))))
    exact ⟨by exact_mod_cast h7.1, h7.2⟩
  · refine iff_of_false (by simp) ?_
    push_neg
    refine ⟨by omega, by omega, by omega, by omega, by omega, ?_, ?_⟩
    · intro g hgb
      revert h6
      rw [hgb]
      simp
    · intro hp
      by_contra hnone
      exact h7 ⟨by exact_mod_cast hp, hnone⟩

theorem mbps_eq (c : SamplerConfig) {M D : Nat} (hM : c.micro_batch_size = (M : Int))
    (hD : c.data_parallel_size = (D : Int)) :
    c.micro_batch_times_data_parallel_size = ((M * D : Nat) : Int) := by
  rw [SamplerConfig.micro_batch_times_data_parallel_size, hM, hD]
  push_cast
  ring

theorem fdiv_mul_add_small (B t s : Int) (hB : 0 < B) (h0 : 0 ≤ s) (hs : s < B) :
    (B * t + s).fdiv B = t := by
  rw [Int.fdiv_eq_ediv _ hB.le, mul_comm B t, add_comm (t * B) s,
    Int.add_mul_ediv_right s t hB.ne', Int.ediv_eq_zero_of_lt h0 hs, zero_add]

theorem pyRange_length (start stop step : Int) :
    (pyRange start stop step).length = (((stop - start) + step - 1).fdiv step).toNat := by
  simp [pyRange]

/-- Claim C5: for every valid sequential configuration with padding on (and
`drop_last` off) whose index range ends in a non-empty tail, every rank
`r < data_parallel_size` emits the same number
`global_batch_size / step_unit` of trailing padded batches, each of length
exactly `micro_batch_size` and consisting of real tail indices followed by
`-1` sentinels. -/
theorem padding_postcondition (c : SamplerConfig) (hv : ValidConfig c)
    (hpad : c.pad_samples_to_global_batch_size = true)
    (hdl : c.drop_last = false)
    (g : Int) (hg : c.global_batch_size = some g)
    (htail : ¬ c.micro_batch_times_data_parallel_size ∣
      (c.total_samples - c.consumed_samples)) :
    ∀ r : Nat, r < c.data_parallel_size.toNat →
      ((seqIter { c with data_parallel_rank := (r : Int) }).drop (numFullWindows c)).length
          = (g.fdiv c.micro_batch_times_data_parallel_size).toNat ∧
      ∀ b ∈ (seqIter { c with data_parallel_rank := (r : Int) }).drop (numFullWindows c),
        b.length = c.micro_batch_size.toNat ∧
        ∃ p, b = p ++ List.replicate (c.micro_batch_size.toNat - p.length) (-1) ∧
          ∀ x ∈ p, (c.consumed_samples
              + c.micro_batch_times_data_parallel_size * (numFullWindows c : Int) ≤ x
            ∧ x < c.total_samples) := by
  obtain ⟨ht, hc0, hct, hm, hd, hr0, hrd, hgc, hpd⟩ := hv
  obtain ⟨M, hM⟩ := Int.eq_ofNat_of_zero_le hm.le
  obtain ⟨D, hD⟩ := Int.eq_ofNat_of_zero_le hd.le
  have hMpos : 0 < M := by rw [hM] at hm; exact_mod_cast hm
  have hDpos : 0 < D := by rw [hD] at hd; exact_mod_cast hd
  have hBe : c.micro_batch_times_data_parallel_size = ((M * D : Nat) : Int) := mbps_eq c hM hD
  have hBt : c.micro_batch_times_data_parallel_size.toNat = M * D := by
    rw [hBe, Int.toNat_natCast]
  have hBDpos : 0 < M * D := Nat.mul_pos hMpos hDpos
  have hBpos : (0 : Int) < c.micro_batch_times_data_parallel_size := by
    rw [hBe]
    exact_mod_cast hBDpos
  rw [hg] at hgc
  obtain ⟨hgpos, hgdvd⟩ := hgc
  obtain ⟨t, hgt⟩ := hgdvd
  intro r hr
  have hrD : r < D := by rw [hD, Int.toNat_natCast] at hr; exact hr
  have hrB : (r : Int) < c.micro_batch_times_data_parallel_size := by
    rw [hBe]
    exact_mod_cast lt_of_lt_of_le hrD (Nat.le_mul_of_pos_left D hMpos)
  have hAcast : (((c.total_samples - c.consumed_samples).toNat : Int))
      = c.total_samples - c.consumed_samples := by omega
  have hAmod : (c.total_samples - c.consumed_samples).toNat % (M * D) ≠ 0 := by
    intro h0
    apply htail
    rw [hBe, ← hAcast]
    exact_mod_cast Nat.dvd_of_mod_eq_zero h0
  have hup : seqIter { c with data_parallel_rank := (r : Int) } =
      (chunksOf (M * D) (seqIndices c)).map
          (fun w => pySlice w ((r : Int) * c.micro_batch_size)
            ((r : Int) * c.micro_batch_size + c.micro_batch_size)) ++
        (pyRange (r : Int) g c.micro_batch_times_data_parallel_size).map
          (fun i => padBatch (chunkRem (M * D) (seqIndices c)) i c.micro_batch_size) := by
    rw [seqIter_unfold { c with data_parallel_rank := (r : Int) } (by
      rw [show ({ c with data_parallel_rank := (r : Int) } :
            SamplerConfig).micro_batch_times_data_parallel_size =
          c.micro_batch_times_data_parallel_size from rfl, hBt]
      exact hBDpos)]
    rw [show ({ c with data_parallel_rank := (r : Int) } :
          SamplerConfig).micro_batch_times_data_parallel_size =
        c.micro_batch_times_data_parallel_size from rfl]
    rw [show seqIndices { c with data_parallel_rank := (r : Int) } = seqIndices c from rfl]
    rw [show ({ c with data_parallel_rank := (r : Int) } :
        SamplerConfig).drop_last = c.drop_last from rfl]
    rw [show ({ c with data_parallel_rank := (r : Int) } :
        SamplerConfig).pad_samples_to_global_batch_size =
        c.pad_samples_to_global_batch_size from rfl]
    rw [show ({ c with data_parallel_rank := (r : Int) } :
        SamplerConfig).global_batch_size = c.global_batch_size from rfl]
    rw [show ({ c with data_parallel_rank := (r : Int) } :
        SamplerConfig).data_parallel_rank = (r : Int) from rfl]
    rw [show ({ c with data_parallel_rank := (r : Int) } :
        SamplerConfig).micro_batch_size = c.micro_batch_size from rfl]
    rw [hBt, hg, hdl, hpad]
    rw [if_pos ?hcond]
    case hcond =>
      refine ⟨?_, rfl⟩
      rw [chunkRem_length _ hBDpos, seqIndices_eq_intList, intList_length]
      omega
    rw [if_pos rfl]
    simp only [Option.getD_some]
  have hmainlen : ((chunksOf (M * D) (seqIndices c)).map
      (fun w => pySlice w ((r : Int) * c.micro_batch_size)
        ((r : Int) * c.micro_batch_size + c.micro_batch_size))).length
      = numFullWindows c := by
    rw [List.length_map, chunksOf_length _ hBDpos, seqIndices_eq_intList, intList_length,
      numFullWindows, hBt]
  have hdrop : (seqIter { c with data_parallel_rank := (r : Int) }).drop (numFullWindows c)
      = (pyRange (r : Int) g c.micro_batch_times_data_parallel_size).map
          (fun i => padBatch (chunkRem (M * D) (seqIndices c)) i c.micro_batch_size) := by
    rw [hup, ← hmainlen, List.drop_left]
  rw [hdrop]
  constructor
  · rw [List.length_map, pyRange_length]
    have e1 : g - (r : Int) + c.micro_batch_times_data_parallel_size - 1 =
        c.micro_batch_times_data_parallel_size * t +
          (c.micro_batch_times_data_parallel_size - 1 - (r : Int)) := by
      rw [hgt]
      ring
    have e2 : (g - (r : Int) + c.micro_batch_times_data_parallel_size - 1).fdiv
        c.micro_batch_times_data_parallel_size = t := by
      rw [e1]
      exact fdiv_mul_add_small _ t _ hBpos (by omega) (by omega)
    have e3 : g.fdiv c.micro_batch_times_data_parallel_size = t := by
      rw [hgt, show c.micro_batch_times_data_parallel_size * t =
        c.micro_batch_times_data_parallel_size * t + 0 by ring]
      exact fdiv_mul_add_small _ t 0 hBpos le_rfl hBpos
    rw [e2, e3]
  · intro b hb
    rw [List.mem_map] at hb
    obtain ⟨i, hi, rfl⟩ := hb
    rw [pyRange, List.mem_map] at hi
    obtain ⟨kk, _, rfl⟩ := hi
    have hi0 : (0 : Int) ≤ (r : Int) + c.micro_batch_times_data_parallel_size * (kk : Int) := by
      positivity
    have hplen : (((chunkRem (M * D) (seqIndices c)).drop
          ((r : Int) + c.micro_batch_times_data_parallel_size * (kk : Int)).toNat).take
        c.micro_batch_size.toNat).length ≤ c.micro_batch_size.toNat := by
      rw [List.length_take]
      exact Nat.min_le_left _ _
    constructor
    · rw [padBatch]
      simp only [List.length_append, List.length_replicate]
      rw [hM, Int.toNat_natCast] at hplen ⊢
      omega
    · refine ⟨((chunkRem (M * D) (seqIndices c)).drop
          ((r : Int) + c.micro_batch_times_data_parallel_size * (kk : Int)).toNat).take
            c.micro_batch_size.toNat, ?_, ?_⟩
      · rw [padBatch]
        congr 2
        rw [hM, Int.toNat_natCast] at hplen ⊢
        omega
      · intro x hx
        have hxrem : x ∈ chunkRem (M * D) (seqIndices c) :=
          List.drop_subset _ _ (List.take_subset _ _ hx)
        rw [chunkRem_eq_drop _ hBDpos, seqIndices_eq_intList, intList_length,
          intList_drop, mem_intList] at hxrem
        have hmulle : (M * D) * ((c.total_samples - c.consumed_samples).toNat / (M * D))
            ≤ (c.total_samples - c.consumed_samples).toNat :=
          Nat.mul_div_le _ _
        have hnf : numFullWindows c
            = (c.total_samples - c.consumed_samples).toNat / (M * D) := by
          rw [numFullWindows, hBt]
        constructor
        · have hcast : c.micro_batch_times_data_parallel_size * ((numFullWindows c : Nat) : Int)
              = ((((M * D) * ((c.total_samples - c.consumed_samples).toNat / (M * D))) : Nat) : Int) := by
            rw [hBe, hnf]
            push_cast
            ring
          rw [hcast]
          exact hxrem.1
        · have := hxrem.2
          omega

/-- Witness for claim C5 at Scenario B's padded configuration, rank 1. -/
theorem padding_postcondition_witness :
    ((seqIter { cfgScenarioBpad with data_parallel_rank := ((1 : Nat) : Int) }).drop
          (numFullWindows cfgScenarioBpad)).length
        = ((4 : Int).fdiv cfgScenarioBpad.micro_batch_times_data_parallel_size).toNat ∧
    ∀ b ∈ (seqIter { cfgScenarioBpad with data_parallel_rank := ((1 : Nat) : Int) }).drop
        (numFullWindows cfgScenarioBpad),
      b.length = cfgScenarioBpad.micro_batch_size.toNat ∧
      ∃ p, b = p ++ List.replicate (cfgScenarioBpad.micro_batch_size.toNat - p.length) (-1) ∧
        ∀ x ∈ p, (cfgScenarioBpad.consumed_samples
            + cfgScenarioBpad.micro_batch_times_data_parallel_size *
              (numFullWindows cfgScenarioBpad : Int) ≤ x
          ∧ x < cfgScenarioBpad.total_samples) :=
  padding_postcondition cfgScenarioBpad
    ⟨by decide, by decide, by decide, by decide, by decide, by decide, by decide,
      ⟨by decide, by decide⟩, by decide⟩
    rfl rfl 4 rfl (by decide) 1 (by decide)

end DataSamplers

namespace DataSamplers

theorem baseSamplerInit_ok_self (c : SamplerConfig) :
    ∀ d, baseSamplerInit c = .ok d → d = c := by
  intro d h
  unfold baseSamplerInit at h
  split_ifs at h <;> cases h <;> rfl

theorem baseSamplerInit_ok_bounds (c : SamplerConfig)
    (h : (baseSamplerInit c).isOk = true) :
    0 < c.total_samples ∧ c.consumed_samples < c.total_samples ∧
    0 < c.micro_batch_size ∧ 0 < c.data_parallel_size ∧
    c.data_parallel_rank < c.data_parallel_size := by
  unfold baseSamplerInit at h
  split_ifs at h with h1 h2 h3 h4 h5 h6 h7
  all_goals first
    | exact Bool.noConfusion h
    | exact ⟨by omega, by omega, by omega, by omega, by omega⟩

theorem randSamplerInit_ok_facts (c : SamplerConfig)
    (h : (randSamplerInit c).isOk = true) :
    (baseSamplerInit c).isOk = true ∧ c.pad_samples_to_global_batch_size = false := by
  rw [randSamplerInit] at h
  cases hb : baseSamplerInit c with
  | error e =>
    rw [hb] at h
    exact Bool.noConfusion h
  | ok d =>
    have hd : d = c := baseSamplerInit_ok_self c d hb
    rw [hd] at hb
    rw [hb] at h
    have h' : (if c.pad_samples_to_global_batch_size then
        (Except.error "MegatronPretrainingRandomSampler does not support sample padding" :
          Except String SamplerConfig)
      else .ok c).isOk = true := h
    by_cases hp : c.pad_samples_to_global_batch_size
    · rw [if_pos hp] at h'
      exact Bool.noConfusion h'
    · refine ⟨rfl, by simpa using hp⟩

theorem mbps_pos (c : SamplerConfig) (hm : 0 < c.micro_batch_size)
    (hd : 0 < c.data_parallel_size) :
    0 < c.micro_batch_times_data_parallel_size := by
  rw [SamplerConfig.micro_batch_times_data_parallel_size]
  exact mul_pos hm hd

theorem active_eq_mul (c : SamplerConfig)
    (hB : 0 < c.micro_batch_times_data_parallel_size) :
    active_total_samples c = c.micro_batch_times_data_parallel_size *
      (c.total_samples / c.micro_batch_times_data_parallel_size) := by
  rw [active_total_samples, last_batch_size, Int.fmod_eq_emod _ hB.le, Int.emod_def]
  ring

theorem active_pos (c : SamplerConfig)
    (hB : 0 < c.micro_batch_times_data_parallel_size)
    (htB : c.micro_batch_times_data_parallel_size ≤ c.total_samples) :
    0 < active_total_samples c := by
  rw [active_eq_mul c hB]
  have h1 : 1 ≤ c.total_samples / c.micro_batch_times_data_parallel_size := by
    rw [Int.le_ediv_iff_mul_le hB, one_mul]
    exact htB
  exact mul_pos hB (by omega)

theorem rand_geometry (c : SamplerConfig)
    (hm : 0 < c.micro_batch_size) (hd : 0 < c.data_parallel_size)
    (hB : c.micro_batch_times_data_parallel_size ≤ c.total_samples)
    (halign : (c.consumed_samples.fmod (active_total_samples c)).fmod
        c.micro_batch_times_data_parallel_size = 0) :
    ∃ j : Nat, c.consumed_samples.fmod (active_total_samples c)
        = c.micro_batch_times_data_parallel_size * (j : Int) ∧
      ((j : Int)) < c.total_samples.fdiv c.micro_batch_times_data_parallel_size ∧
      (c.consumed_samples.fmod (active_total_samples c)).fdiv c.data_parallel_size
        = c.micro_batch_size * (j : Int) := by
  have hBpos : 0 < c.micro_batch_times_data_parallel_size := mbps_pos c hm hd
  have hact : 0 < active_total_samples c := active_pos c hBpos hB
  have hces : c.consumed_samples.fmod (active_total_samples c)
      = c.consumed_samples % (active_total_samples c) :=
    Int.fmod_eq_emod _ hact.le
  have hces0 : 0 ≤ c.consumed_samples.fmod (active_total_samples c) := by
    rw [hces]
    exact Int.emod_nonneg _ hact.ne'
  have hceslt : c.consumed_samples.fmod (active_total_samples c) < active_total_samples c := by
    rw [hces]
    exact Int.emod_lt_of_pos _ hact
  rw [Int.fmod_eq_emod _ hBpos.le] at halign
  obtain ⟨jz, hjz⟩ : c.micro_batch_times_data_parallel_size ∣
      c.consumed_samples.fmod (active_total_samples c) :=
    Int.dvd_iff_emod_eq_zero.mpr halign
  have hjz0 : 0 ≤ jz := by
    by_contra hneg
    push_neg at hneg
    have h2 : c.micro_batch_times_data_parallel_size * jz ≤
        c.micro_batch_times_data_parallel_size * (-1) :=
      mul_le_mul_of_nonneg_left (by omega) hBpos.le
    omega
  obtain ⟨j, rfl⟩ := Int.eq_ofNat_of_zero_le hjz0
  refine ⟨j, hjz, ?_, ?_⟩
  · rw [Int.fdiv_eq_ediv _ hBpos.le]
    have h3 : c.micro_batch_times_data_parallel_size * (j : Int) <
        c.micro_batch_times_data_parallel_size *
          (c.total_samples / c.micro_batch_times_data_parallel_size) := by
      rw [← active_eq_mul c hBpos, ← hjz]
      exact hceslt
    exact lt_of_mul_lt_mul_left h3 hBpos.le
  · rw [hjz, Int.fdiv_eq_ediv _ hd.le,
      show c.micro_batch_times_data_parallel_size * (j : Int) =
        (c.micro_batch_size * (j : Int)) * c.data_parallel_size by
          rw [SamplerConfig.micro_batch_times_data_parallel_size]; ring,
      Int.mul_ediv_cancel _ hd.ne']

theorem randIter_run (perm : Nat → Nat → List Int) (c : SamplerConfig)
    (hm : 0 < c.micro_batch_size) (hd : 0 < c.data_parallel_size)
    (hB : c.micro_batch_times_data_parallel_size ≤ c.total_samples)
    (halign : (c.consumed_samples.fmod (active_total_samples c)).fmod
        c.micro_batch_times_data_parallel_size = 0) :
    randIter perm c = .ok (randLoop c.micro_batch_size.toNat
      c.micro_batch_times_data_parallel_size c.drop_last c.consumed_samples []
      (((perm (c.consumed_samples.fdiv (active_total_samples c)).toNat
          ((c.total_samples.fdiv c.micro_batch_times_data_parallel_size *
            c.micro_batch_size).toNat)).drop
        (((c.consumed_samples.fmod (active_total_samples c)).fdiv
          c.data_parallel_size).toNat)).map
        (fun x => c.data_parallel_rank *
          (c.total_samples.fdiv c.micro_batch_times_data_parallel_size *
            c.micro_batch_size) + x))) := by
  have hBpos : 0 < c.micro_batch_times_data_parallel_size := mbps_pos c hm hd
  have hact : 0 < active_total_samples c := active_pos c hBpos hB
  have hact' : ¬ (c.total_samples - last_batch_size c = 0) := by
    rw [show c.total_samples - last_batch_size c = active_total_samples c from rfl]
    omega
  have halign' : ¬ ((c.consumed_samples.fmod (c.total_samples - last_batch_size c)).fmod
      c.micro_batch_times_data_parallel_size ≠ 0) :=
    not_not_intro halign
  simp only [randIter]
  rw [if_neg hact', if_neg halign']
  rfl

end DataSamplers

namespace DataSamplers

/-- Claim C10: a configuration that passes the randomized sampler's
construction but has `total_samples < micro_batch_size * data_parallel_size`
gets `last_batch_size = total_samples`, `active_total_samples = 0`, and
beginning iteration divides by zero (embedded as an error) before yielding
any batch, for every permutation source. -/
theorem rand_small_total_division_by_zero (c : SamplerConfig)
    (hok : (randSamplerInit c).isOk = true)
    (hsmall : c.total_samples < c.micro_batch_times_data_parallel_size) :
    last_batch_size c = c.total_samples ∧
    active_total_samples c = 0 ∧
    ∀ perm, randIter perm c = .error "ZeroDivisionError" := by
  obtain ⟨hbase, hpad⟩ := randSamplerInit_ok_facts c hok
  obtain ⟨ht, hct, hm, hd, hrd⟩ := baseSamplerInit_ok_bounds c hbase
  have hBpos := mbps_pos c hm hd
  have hlast : last_batch_size c = c.total_samples := by
    rw [last_batch_size, Int.fmod_eq_emod _ hBpos.le, Int.emod_eq_of_lt (by omega) hsmall]
  have hact : active_total_samples c = 0 := by
    rw [active_total_samples, hlast]
    ring
  refine ⟨hlast, hact, ?_⟩
  intro perm
  simp only [randIter]
  rw [if_pos (show c.total_samples - last_batch_size c = 0 from hact)]

/-- Witness for claim C10: Scenario C's parameters with `total_samples = 3`,
below the step unit 4. -/
theorem rand_small_total_division_by_zero_witness :
    last_batch_size { cfgScenarioC with total_samples := 3 } =
      ({ cfgScenarioC with total_samples := 3 } : SamplerConfig).total_samples ∧
    active_total_samples { cfgScenarioC with total_samples := 3 } = 0 ∧
    ∀ perm, randIter perm { cfgScenarioC with total_samples := 3 } =
      .error "ZeroDivisionError" :=
  rand_small_total_division_by_zero { cfgScenarioC with total_samples := 3 }
    (by decide) (by decide)

/-- Claim C6: for a valid randomized configuration with at least one full
step per epoch, beginning iteration fails if and only if
`consumed_samples mod active_total_samples` is not a multiple of
`micro_batch_times_data_parallel_size`; when aligned, iteration proceeds and
emits at least one batch. -/
theorem rand_alignment_raises_iff (c : SamplerConfig) (perm : Nat → Nat → List Int)
    (hperm : ∀ s n, (perm s n).length = n)
    (hv : ValidConfig c)
    (hB : c.micro_batch_times_data_parallel_size ≤ c.total_samples) :
    ((∃ e, randIter perm c = .error e) ↔
      ¬ (c.consumed_samples.fmod (active_total_samples c)).fmod
          c.micro_batch_times_data_parallel_size = 0)
    ∧ ((c.consumed_samples.fmod (active_total_samples c)).fmod
          c.micro_batch_times_data_parallel_size = 0 →
        ∃ bs fin, randIter perm c = .ok (bs, fin) ∧ bs ≠ []) := by
  obtain ⟨ht, hc0, hct, hm, hd, hr0, hrd, hgc, hpd⟩ := hv
  have hBpos := mbps_pos c hm hd
  have hact := active_pos c hBpos hB
  by_cases halign : (c.consumed_samples.fmod (active_total_samples c)).fmod
      c.micro_batch_times_data_parallel_size = 0
  · have hrun := randIter_run perm c hm hd hB halign
    constructor
    · refine iff_of_false ?_ (not_not_intro halign)
      rintro ⟨e, he⟩
      rw [hrun] at he
      cases he
    · intro _
      obtain ⟨j, hj1, hj2, hj3⟩ := rand_geometry c hm hd hB halign
      obtain ⟨M, hM⟩ := Int.eq_ofNat_of_zero_le hm.le
      have hMpos : 0 < M := by rw [hM] at hm; exact_mod_cast hm
      have hMt : c.micro_batch_size.toNat = M := by rw [hM, Int.toNat_natCast]
      have hQ0 : 0 ≤ c.total_samples.fdiv c.micro_batch_times_data_parallel_size := by
        rw [Int.fdiv_eq_ediv _ hBpos.le]
        exact Int.ediv_nonneg (by omega) hBpos.le
      obtain ⟨Q, hQ⟩ := Int.eq_ofNat_of_zero_le hQ0
      have hjQ : j < Q := by rw [hQ] at hj2; exact_mod_cast hj2
      have hbucket : (c.total_samples.fdiv c.micro_batch_times_data_parallel_size *
          c.micro_batch_size).toNat = Q * M := by
        rw [hQ, hM, ← Int.natCast_mul, Int.toNat_natCast]
      have hoffset : ((c.consumed_samples.fmod (active_total_samples c)).fdiv
          c.data_parallel_size).toNat = M * j := by
        rw [hj3, hM, ← Int.natCast_mul, Int.toNat_natCast]
      set L := ((perm (c.consumed_samples.fdiv (active_total_samples c)).toNat
          ((c.total_samples.fdiv c.micro_batch_times_data_parallel_size *
            c.micro_batch_size).toNat)).drop
        (((c.consumed_samples.fmod (active_total_samples c)).fdiv
          c.data_parallel_size).toNat)).map
        (fun x => c.data_parallel_rank *
          (c.total_samples.fdiv c.micro_batch_times_data_parallel_size *
            c.micro_batch_size) + x) with hL
      have hLlen : L.length = Q * M - M * j := by
        rw [hL, List.length_map, List.length_drop, hperm, hbucket, hoffset]
      have hMleL : c.micro_batch_size.toNat ≤ L.length := by
        rw [hLlen, hMt]
        have h6 : M * j + M ≤ Q * M := by
          have h7 : M * (j + 1) ≤ M * Q := Nat.mul_le_mul_left M (by omega)
          rw [Nat.mul_succ] at h7
          rw [Nat.mul_comm Q M]
          exact h7
        omega
      have hMpos' : 0 < c.micro_batch_size.toNat := by rw [hMt]; exact hMpos
      have hloop := randLoop_eq c.micro_batch_size.toNat hMpos'
        c.micro_batch_times_data_parallel_size c.drop_last L [] c.consumed_samples
        (by simpa using hMpos')
      rw [List.nil_append] at hloop
      refine ⟨_, _, by rw [hrun, hloop], ?_⟩
      intro hnil
      rw [List.append_eq_nil] at hnil
      have hchunks := hnil.1
      rw [chunksOf_cons_of_le hMpos' hMleL] at hchunks
      exact List.noConfusion hchunks
  · have herr : randIter perm c = .error
        "AssertionError: current_epoch_samples % micro_batch_times_data_parallel_size == 0" := by
      simp only [randIter]
      rw [if_neg (show ¬ (c.total_samples - last_batch_size c = 0) by
          rw [show c.total_samples - last_batch_size c = active_total_samples c from rfl]
          omega),
        if_pos (show (c.consumed_samples.fmod (c.total_samples - last_batch_size c)).fmod
            c.micro_batch_times_data_parallel_size ≠ 0 from halign)]
    exact ⟨iff_of_true ⟨_, herr⟩ halign, fun h => absurd h halign⟩

/-- Witness for claim C6 at Scenario C's configuration with the identity
permutation source. -/
theorem rand_alignment_raises_iff_witness :
    ((∃ e, randIter idPerm cfgScenarioC = .error e) ↔
      ¬ (cfgScenarioC.consumed_samples.fmod (active_total_samples cfgScenarioC)).fmod
          cfgScenarioC.micro_batch_times_data_parallel_size = 0)
    ∧ ((cfgScenarioC.consumed_samples.fmod (active_total_samples cfgScenarioC)).fmod
          cfgScenarioC.micro_batch_times_data_parallel_size = 0 →
        ∃ bs fin, randIter idPerm cfgScenarioC = .ok (bs, fin) ∧ bs ≠ []) :=
  rand_alignment_raises_iff cfgScenarioC idPerm (fun s n => by simp [idPerm])
    ⟨by decide, by decide, by decide, by decide, by decide, by decide, by decide,
      trivial, by decide⟩
    (by decide)

end DataSamplers

namespace DataSamplers

theorem filter_full_len (M : Nat) (hM : 0 < M) (L : List Int) (tl : List (List Int))
    (htl : ∀ w ∈ tl, w.length < M) :
    ((chunksOf M L ++ tl).filter (fun b => b.length = M)).length
      = (chunksOf M L).length := by
  have h1 : (chunksOf M L).filter (fun b => b.length = M) = chunksOf M L := by
    rw [List.filter_eq_self]
    intro w hw
    simp only [decide_eq_true_eq]
    exact chunksOf_mem_length M hM L w hw
  have h2 : tl.filter (fun b => b.length = M) = [] := by
    rw [List.filter_eq_nil]
    intro w hw
    have h3 := htl w hw
    simp only [decide_eq_true_eq]
    omega
  rw [List.filter_append, h1, h2, List.append_nil]

/-- Claim C7: iterating the sequential generator leaves the sampler state
(and in particular `consumed_samples`) unchanged, while the randomized
generator's final `consumed_samples` equals the initial value plus
`micro_batch_times_data_parallel_size` for every full micro-batch it
yielded. -/
theorem consumed_samples_side_effect (c : SamplerConfig) (perm : Nat → Nat → List Int)
    (hv : ValidConfig c) (bs : List (List Int)) (fin : Int)
    (h : randIter perm c = .ok (bs, fin)) :
    (seqIterWithState c).2 = c ∧
    fin = c.consumed_samples + c.micro_batch_times_data_parallel_size *
      (((bs.filter (fun b => b.length = c.micro_batch_size.toNat)).length : Nat) : Int) := by
  obtain ⟨ht, hc0, hct, hm, hd, hr0, hrd, hgc, hpd⟩ := hv
  have hMpos : 0 < c.micro_batch_size.toNat := by omega
  refine ⟨rfl, ?_⟩
  simp only [randIter] at h
  by_cases h1 : c.total_samples - last_batch_size c = 0
  · rw [if_pos h1] at h
    cases h
  · rw [if_neg h1] at h
    by_cases h2 : (c.consumed_samples.fmod (c.total_samples - last_batch_size c)).fmod
        c.micro_batch_times_data_parallel_size ≠ 0
    · rw [if_pos h2] at h
      cases h
    · rw [if_neg h2] at h
      injection h with h3
      rw [randLoop_eq c.micro_batch_size.toNat hMpos
          c.micro_batch_times_data_parallel_size c.drop_last _ [] c.consumed_samples
          (by simpa using hMpos), List.nil_append, Prod.mk.injEq] at h3
      obtain ⟨hbs, hfin⟩ := h3
      rw [← hbs, filter_full_len c.micro_batch_size.toNat hMpos _ _ ?htl]
      · exact hfin.symm
      case htl =>
        intro w hw
        by_cases hcond : chunkRem c.micro_batch_size.toNat
            ((List.map (fun x => c.data_parallel_rank *
                (c.total_samples.fdiv c.micro_batch_times_data_parallel_size *
                  c.micro_batch_size) + x)
              (List.drop (((c.consumed_samples.fmod
                  (c.total_samples - last_batch_size c)).fdiv c.data_parallel_size).toNat)
                (perm ((c.consumed_samples.fdiv
                    (c.total_samples - last_batch_size c)).toNat)
                  ((c.total_samples.fdiv c.micro_batch_times_data_parallel_size *
                    c.micro_batch_size).toNat))))) ≠ [] ∧ c.drop_last = false
        · rw [if_pos hcond, List.mem_singleton] at hw
          rw [hw, chunkRem_length _ hMpos]
          exact Nat.mod_lt _ hMpos
        · rw [if_neg hcond] at hw
          exact absurd hw (List.not_mem_nil w)

/-- Witness for claim C7 at Scenario C's configuration with the identity
permutation source: the run yields two full batches and finishes with
`consumed_samples = 0 + 4 * 2 = 8`. -/
theorem consumed_samples_side_effect_witness :
    (seqIterWithState cfgScenarioC).2 = cfgScenarioC ∧
    (8 : Int) = cfgScenarioC.consumed_samples +
      cfgScenarioC.micro_batch_times_data_parallel_size *
      (((([[0, 1], [2, 3]] : List (List Int)).filter
          (fun b => b.length = cfgScenarioC.micro_batch_size.toNat)).length : Nat) : Int) :=
  consumed_samples_side_effect cfgScenarioC idPerm
    ⟨by decide, by decide, by decide, by decide, by decide, by decide, by decide,
      trivial, by decide⟩
    [[0, 1], [2, 3]] 8 (by rfl)

end DataSamplers

namespace DataSamplers

/-- Claim C2: the randomized strategy is deterministic — two samplers built
with identical parameters produce identical results — and resuming with
`consumed_samples` advanced by `k` whole steps inside the same epoch yields
exactly the original batch sequence with its first `k` batches removed
(Scenario C is the witness below). -/
theorem rand_determinism_resume_suffix (c : SamplerConfig) (perm : Nat → Nat → List Int)
    (hperm : ∀ s n, (perm s n).length = n)
    (hv : ValidConfig c)
    (hB : c.micro_batch_times_data_parallel_size ≤ c.total_samples)
    (halign : (c.consumed_samples.fmod (active_total_samples c)).fmod
        c.micro_batch_times_data_parallel_size = 0)
    (k : Nat)
    (hsame : c.consumed_samples.fmod (active_total_samples c)
        + (k : Int) * c.micro_batch_times_data_parallel_size < active_total_samples c) :
    (∀ c2 : SamplerConfig,
        c2.total_samples = c.total_samples → c2.consumed_samples = c.consumed_samples →
        c2.micro_batch_size = c.micro_batch_size →
        c2.data_parallel_rank = c.data_parallel_rank →
        c2.data_parallel_size = c.data_parallel_size →
        c2.drop_last = c.drop_last → c2.global_batch_size = c.global_batch_size →
        c2.pad_samples_to_global_batch_size = c.pad_samples_to_global_batch_size →
        randIter perm c2 = randIter perm c) ∧
    (∃ bs fin bs2 fin2,
        randIter perm c = .ok (bs, fin) ∧
        randIter perm { c with consumed_samples := c.consumed_samples
          + (k : Int) * c.micro_batch_times_data_parallel_size } = .ok (bs2, fin2) ∧
        bs2 = bs.drop k) := by
  obtain ⟨ht, hc0, hct, hm, hd, hr0, hrd, hgc, hpd⟩ := hv
  have hBpos := mbps_pos c hm hd
  have hact := active_pos c hBpos hB
  constructor
  · intro c2 e1 e2 e3 e4 e5 e6 e7 e8
    have hceq : c2 = c := by
      obtain ⟨t1, t2, t3, t4, t5, t6, t7, t8⟩ := c2
      obtain ⟨s1, s2, s3, s4, s5, s6, s7, s8⟩ := c
      simp_all
    rw [hceq]
  · obtain ⟨j, hj1, hj2, hj3⟩ := rand_geometry c hm hd hB halign
    obtain ⟨M, hM⟩ := Int.eq_ofNat_of_zero_le hm.le
    have hMpos : 0 < M := by rw [hM] at hm; exact_mod_cast hm
    have hMt : c.micro_batch_size.toNat = M := by rw [hM, Int.toNat_natCast]
    have hQ0 : 0 ≤ c.total_samples.fdiv c.micro_batch_times_data_parallel_size := by
      rw [Int.fdiv_eq_ediv _ hBpos.le]
      exact Int.ediv_nonneg (by omega) hBpos.le
    obtain ⟨Q, hQ⟩ := Int.eq_ofNat_of_zero_le hQ0
    have hjQ : j < Q := by rw [hQ] at hj2; exact_mod_cast hj2
    have hactQ : active_total_samples c =
        c.micro_batch_times_data_parallel_size * (Q : Int) := by
      rw [active_eq_mul c hBpos, ← Int.fdiv_eq_ediv _ hBpos.le, hQ]
    have hjkn : j + k < Q := by
      rw [hj1, hactQ] at hsame
      have h9 : c.micro_batch_times_data_parallel_size * ((j : Int) + (k : Int))
          < c.micro_batch_times_data_parallel_size * (Q : Int) := by
        have hcomm : c.micro_batch_times_data_parallel_size * ((j : Int) + (k : Int))
            = c.micro_batch_times_data_parallel_size * (j : Int)
              + (k : Int) * c.micro_batch_times_data_parallel_size := by ring
        rw [hcomm]
        exact hsame
      have h10 : ((j : Int)) + (k : Int) < (Q : Int) :=
        lt_of_mul_lt_mul_left h9 hBpos.le
      exact_mod_cast h10
    set c' := { c with consumed_samples := c.consumed_samples
      + (k : Int) * c.micro_batch_times_data_parallel_size } with hcp
    have hces0 : 0 ≤ c.consumed_samples.fmod (active_total_samples c) := by
      rw [Int.fmod_eq_emod _ hact.le]
      exact Int.emod_nonneg _ hact.ne'
    have hkB0 : (0 : Int) ≤ (k : Int) * c.micro_batch_times_data_parallel_size :=
      mul_nonneg (by positivity) hBpos.le
    have hdecomp : c'.consumed_samples =
        (c.consumed_samples.fmod (active_total_samples c)
          + (k : Int) * c.micro_batch_times_data_parallel_size)
        + (active_total_samples c) *
            (c.consumed_samples / active_total_samples c) := by
      rw [show c'.consumed_samples = c.consumed_samples
        + (k : Int) * c.micro_batch_times_data_parallel_size from rfl,
        Int.fmod_eq_emod _ hact.le]
      have h10 := Int.ediv_add_emod c.consumed_samples (active_total_samples c)
      omega
    have hfd' : c'.consumed_samples.fdiv (active_total_samples c)
        = c.consumed_samples.fdiv (active_total_samples c) := by
      rw [Int.fdiv_eq_ediv _ hact.le, Int.fdiv_eq_ediv _ hact.le, hdecomp,
        Int.add_mul_ediv_left _ _ hact.ne',
        Int.ediv_eq_zero_of_lt (by omega) hsame, zero_add]
    have hfm' : c'.consumed_samples.fmod (active_total_samples c)
        = c.consumed_samples.fmod (active_total_samples c)
          + (k : Int) * c.micro_batch_times_data_parallel_size := by
      rw [Int.fmod_eq_emod _ hact.le, hdecomp, Int.add_mul_emod_self_left,
        Int.emod_eq_of_lt (by omega) hsame]
    have halign' : (c'.consumed_samples.fmod (active_total_samples c)).fmod
        c.micro_batch_times_data_parallel_size = 0 := by
      rw [hfm', hj1, Int.fmod_eq_emod _ hBpos.le,
        show c.micro_batch_times_data_parallel_size * (j : Int)
            + (k : Int) * c.micro_batch_times_data_parallel_size
          = c.micro_batch_times_data_parallel_size * ((j : Int) + (k : Int)) by ring,
        Int.mul_emod_right]
    have hoff' : (c'.consumed_samples.fmod (active_total_samples c)).fdiv
        c.data_parallel_size = c.micro_batch_size * ((j : Int) + (k : Int)) := by
      rw [hfm', hj1, Int.fdiv_eq_ediv _ hd.le,
        show c.micro_batch_times_data_parallel_size * (j : Int)
            + (k : Int) * c.micro_batch_times_data_parallel_size
          = (c.micro_batch_size * ((j : Int) + (k : Int))) * c.data_parallel_size by
            rw [SamplerConfig.micro_batch_times_data_parallel_size]; ring,
        Int.mul_ediv_cancel _ hd.ne']
    have hofft : ((c.consumed_samples.fmod (active_total_samples c)).fdiv
        c.data_parallel_size).toNat = M * j := by
      rw [hj3, hM, ← Int.natCast_mul, Int.toNat_natCast]
    have hofft' : ((c'.consumed_samples.fmod (active_total_samples c)).fdiv
        c.data_parallel_size).toNat = M * (j + k) := by
      rw [hoff', hM, show ((M : Int)) * ((j : Int) + (k : Int))
        = ((M * (j + k) : Nat) : Int) by push_cast; ring, Int.toNat_natCast]
    have hrun := randIter_run perm c hm hd hB halign
    have hrun' := randIter_run perm c' hm hd hB halign'
    rw [hofft, hMt] at hrun
    rw [show active_total_samples c' = active_total_samples c from rfl,
      show c'.micro_batch_size = c.micro_batch_size from rfl,
      show c'.micro_batch_times_data_parallel_size
        = c.micro_batch_times_data_parallel_size from rfl,
      show c'.drop_last = c.drop_last from rfl,
      show c'.total_samples = c.total_samples from rfl,
      show c'.data_parallel_size = c.data_parallel_size from rfl,
      show c'.data_parallel_rank = c.data_parallel_rank from rfl,
      hfd', hofft', hMt] at hrun'
    set randidx := perm ((c.consumed_samples.fdiv (active_total_samples c)).toNat)
      ((c.total_samples.fdiv c.micro_batch_times_data_parallel_size *
        c.micro_batch_size).toNat) with hridx
    set f : Int → Int := fun x => c.data_parallel_rank *
      (c.total_samples.fdiv c.micro_batch_times_data_parallel_size *
        c.micro_batch_size) + x with hf
    set L := (randidx.drop (M * j)).map f with hL
    have hL' : (randidx.drop (M * (j + k))).map f = L.drop (M * k) := by
      rw [hL, ← List.map_drop]
      congr 1
      rw [List.drop_drop]
      congr 1
      ring
    rw [hL'] at hrun'
    have hbucket : (c.total_samples.fdiv c.micro_batch_times_data_parallel_size *
        c.micro_batch_size).toNat = Q * M := by
      rw [hQ, hM, ← Int.natCast_mul, Int.toNat_natCast]
    have hLlen : L.length = Q * M - M * j := by
      rw [hL, List.length_map, List.length_drop, hridx, hperm, hbucket]
    have hLdiv : L.length / M = Q - j := by
      rw [hLlen]
      have h11 : Q * M = M * j + M * (Q - j) := by
        rw [← Nat.left_distrib, show j + (Q - j) = Q from by omega, Nat.mul_comm]
      have h12 : Q * M - M * j = M * (Q - j) := by omega
      rw [h12, Nat.mul_div_cancel_left _ hMpos]
    have hkle : k ≤ L.length / M := by
      rw [hLdiv]
      omega
    set tl := if chunkRem M L ≠ [] ∧ c.drop_last = false then [chunkRem M L] else []
      with htl
    have hloop := randLoop_eq M hMpos c.micro_batch_times_data_parallel_size
      c.drop_last L [] c.consumed_samples (by simpa using hMpos)
    have hloop' := randLoop_eq M hMpos c.micro_batch_times_data_parallel_size
      c.drop_last (L.drop (M * k)) [] c'.consumed_samples (by simpa using hMpos)
    rw [List.nil_append] at hloop hloop'
    rw [chunksOf_drop M hMpos k L, chunkRem_drop M hMpos k L hkle] at hloop'
    have hdropapp : (chunksOf M L ++ tl).drop k = (chunksOf M L).drop k ++ tl :=
      List.drop_append_of_le_length (by rw [chunksOf_length M hMpos]; exact hkle)
    refine ⟨chunksOf M L ++ tl,
      c.consumed_samples + c.micro_batch_times_data_parallel_size *
        ((chunksOf M L).length : Int),
      (chunksOf M L).drop k ++ tl,
      c'.consumed_samples + c.micro_batch_times_data_parallel_size *
        (((chunksOf M L).drop k).length : Int), ?_, ?_, ?_⟩
    · rw [hrun, hloop]
    · rw [hrun', hloop']
    · rw [hdropapp]

/-- Witness for claim C2: Scenario C, resuming after one step
(`consumed_samples` 0 versus 4) with the identity permutation source. -/
theorem rand_determinism_resume_suffix_witness :
    (∀ c2 : SamplerConfig,
        c2.total_samples = cfgScenarioC.total_samples →
        c2.consumed_samples = cfgScenarioC.consumed_samples →
        c2.micro_batch_size = cfgScenarioC.micro_batch_size →
        c2.data_parallel_rank = cfgScenarioC.data_parallel_rank →
        c2.data_parallel_size = cfgScenarioC.data_parallel_size →
        c2.drop_last = cfgScenarioC.drop_last →
        c2.global_batch_size = cfgScenarioC.global_batch_size →
        c2.pad_samples_to_global_batch_size = cfgScenarioC.pad_samples_to_global_batch_size →
        randIter idPerm c2 = randIter idPerm cfgScenarioC) ∧
    (∃ bs fin bs2 fin2,
        randIter idPerm cfgScenarioC = .ok (bs, fin) ∧
        randIter idPerm { cfgScenarioC with
          consumed_samples := cfgScenarioC.consumed_samples
            + ((1 : Nat) : Int) * cfgScenarioC.micro_batch_times_data_parallel_size } =
          .ok (bs2, fin2) ∧
        bs2 = bs.drop 1) :=
  rand_determinism_resume_suffix cfgScenarioC idPerm (fun s n => by simp [idPerm])
    ⟨by decide, by decide, by decide, by decide, by decide, by decide, by decide,
      trivial, by decide⟩
    (by decide) (by decide) 1 (by decide)

end DataSamplers

namespace DataSamplers

theorem samplerLen_exact (c : SamplerConfig) (F : Nat)
    (hg : c.global_batch_size = none ∨
      c.global_batch_size = some c.micro_batch_times_data_parallel_size)
    (hBpos : 0 < c.micro_batch_times_data_parallel_size)
    (hF : c.total_samples - c.consumed_samples
      = c.micro_batch_times_data_parallel_size * (F : Int))
    (hFpos : 0 < F) :
    samplerLen c = (F : Int) := by
  rcases hg with hg | hg
  · simp only [samplerLen, hg]
    rw [hF, show c.micro_batch_times_data_parallel_size * (F : Int) - 1
      = c.micro_batch_times_data_parallel_size * ((F : Int) - 1)
        + (c.micro_batch_times_data_parallel_size - 1) by ring,
      fdiv_mul_add_small _ _ _ hBpos (by omega) (by omega)]
    ring
  · simp only [samplerLen, hg]
    by_cases hdl : c.drop_last = true
    · rw [if_pos hdl, hF, show c.micro_batch_times_data_parallel_size * (F : Int)
        = c.micro_batch_times_data_parallel_size * (F : Int) + 0 by ring,
        fdiv_mul_add_small _ _ _ hBpos le_rfl hBpos]
    · rw [if_neg hdl, hF, show c.micro_batch_times_data_parallel_size * (F : Int)
          + c.micro_batch_times_data_parallel_size - 1
        = c.micro_batch_times_data_parallel_size * (F : Int)
          + (c.micro_batch_times_data_parallel_size - 1) by ring,
        fdiv_mul_add_small _ _ _ hBpos (by omega) (by omega)]

theorem samplerLen_ceil (c : SamplerConfig) (F : Nat) (s : Int)
    (hg : c.global_batch_size = none ∨
      c.global_batch_size = some c.micro_batch_times_data_parallel_size)
    (hBpos : 0 < c.micro_batch_times_data_parallel_size)
    (hdl : c.drop_last = false)
    (hF : c.total_samples - c.consumed_samples
      = c.micro_batch_times_data_parallel_size * (F : Int) + s)
    (hs0 : 0 < s) (hsB : s < c.micro_batch_times_data_parallel_size) :
    samplerLen c = (F : Int) + 1 := by
  rcases hg with hg | hg
  · simp only [samplerLen, hg]
    rw [hF, show c.micro_batch_times_data_parallel_size * (F : Int) + s - 1
      = c.micro_batch_times_data_parallel_size * (F : Int) + (s - 1) by ring,
      fdiv_mul_add_small _ _ _ hBpos (by omega) (by omega)]
  · simp only [samplerLen, hg]
    rw [if_neg (by rw [hdl]; exact Bool.false_ne_true), hF,
      show c.micro_batch_times_data_parallel_size * (F : Int) + s
          + c.micro_batch_times_data_parallel_size - 1
        = c.micro_batch_times_data_parallel_size * ((F : Int) + 1) + (s - 1) by ring,
      fdiv_mul_add_small _ _ _ hBpos (by omega) (by omega)]

/-- Counterexample to claim C4: at Scenario A's configuration `__len__`
returns 3 but the sequential generator yields 2 batches, and the randomized
generator (identity permutation source) also yields 2 batches. -/
theorem length_mismatch_counterexample :
    samplerLen cfgScenarioA = 3 ∧ (seqIter cfgScenarioA).length = 2 ∧
    randIter idPerm cfgScenarioA = .ok ([[0, 1], [2, 3]], 8) ∧
    (3 : Int) ≠ 2 := by
  refine ⟨by decide, by decide, by rfl, by decide⟩

end DataSamplers

namespace DataSamplers

/-- Amended claim C4: `length()` equals the number of batches produced by full
iteration under the side conditions the counterexample forces: the
`global_batch_size` is absent or equal to the step unit; for the sequential
strategy, additionally `drop_last` is off or the step unit divides the
available range; for the randomized strategy, additionally the step unit
divides `total_samples` and `consumed_samples` (no dropped remainder and
aligned resume). -/
theorem length_matches_iteration (c : SamplerConfig) (hv : ValidConfig c)
    (hg : c.global_batch_size = none ∨
      c.global_batch_size = some c.micro_batch_times_data_parallel_size) :
    ((c.drop_last = true → c.micro_batch_times_data_parallel_size ∣
        (c.total_samples - c.consumed_samples)) →
      samplerLen c = ((seqIter c).length : Int)) ∧
    (∀ perm : Nat → Nat → List Int, (∀ s n, (perm s n).length = n) →
      c.micro_batch_times_data_parallel_size ∣ c.total_samples →
      c.micro_batch_times_data_parallel_size ∣ c.consumed_samples →
      ∃ bs fin, randIter perm c = .ok (bs, fin) ∧ samplerLen c = (bs.length : Int)) := by
  obtain ⟨ht, hc0, hct, hm, hd, hr0, hrd, hgc, hpd⟩ := hv
  obtain ⟨M, hM⟩ := Int.eq_ofNat_of_zero_le hm.le
  obtain ⟨D, hD⟩ := Int.eq_ofNat_of_zero_le hd.le
  have hMpos : 0 < M := by rw [hM] at hm; exact_mod_cast hm
  have hDpos : 0 < D := by rw [hD] at hd; exact_mod_cast hd
  have hMt : c.micro_batch_size.toNat = M := by rw [hM, Int.toNat_natCast]
  have hBe : c.micro_batch_times_data_parallel_size = ((M * D : Nat) : Int) := mbps_eq c hM hD
  have hBt : c.micro_batch_times_data_parallel_size.toNat = M * D := by
    rw [hBe, Int.toNat_natCast]
  have hBDpos : 0 < M * D := Nat.mul_pos hMpos hDpos
  have hBpos : (0 : Int) < c.micro_batch_times_data_parallel_size := by
    rw [hBe]
    exact_mod_cast hBDpos
  constructor
  · intro hdl
    set A := (c.total_samples - c.consumed_samples).toNat with hA
    have hAc : ((A : Nat) : Int) = c.total_samples - c.consumed_samples := by omega
    have hApos : 0 < A := by omega
    have hFM := Nat.div_add_mod A (M * D)
    have hremlen : (chunkRem (M * D) (seqIndices c)).length = A % (M * D) := by
      rw [chunkRem_length _ hBDpos, seqIndices_eq_intList, intList_length, ← hA]
    have hmainlen : ((chunksOf (M * D) (seqIndices c)).map
        (fun w => pySlice w (c.data_parallel_rank * c.micro_batch_size)
          (c.data_parallel_rank * c.micro_batch_size + c.micro_batch_size))).length
        = A / (M * D) := by
      rw [List.length_map, chunksOf_length _ hBDpos, seqIndices_eq_intList,
        intList_length, ← hA]
    have hFeq : ∀ s : Int, s = ((A % (M * D) : Nat) : Int) →
        c.total_samples - c.consumed_samples
          = c.micro_batch_times_data_parallel_size * ((A / (M * D) : Nat) : Int) + s := by
      intro s hs
      rw [hs, hBe, ← hAc, ← Int.natCast_mul, ← Nat.cast_add]
      exact_mod_cast hFM.symm
    rw [seqIter_unfold c (by rw [hBt]; exact hBDpos), hBt, List.length_append, hmainlen]
    by_cases hmod : A % (M * D) = 0
    · have hcond : ¬ ((chunkRem (M * D) (seqIndices c)).length > 0 ∧
          c.drop_last = false) := by
        rw [hremlen, hmod]
        intro hcon
        exact absurd hcon.1 (by omega)
      rw [if_neg hcond, List.length_nil, Nat.add_zero]
      have hq : A / (M * D) ≠ 0 := by
        intro h0
        rw [h0, Nat.mul_zero] at hFM
        omega
      exact samplerLen_exact c (A / (M * D)) hg hBpos
        (by simpa using hFeq ((0 : Nat) : Int) (by rw [hmod]))
        (by omega)
    · cases hdlc : c.drop_last with
      | true =>
        exfalso
        apply hmod
        have h1 : ((M * D : Nat) : Int) ∣ ((A : Nat) : Int) := by
          rw [hAc, ← hBe]
          exact hdl hdlc
        obtain ⟨w, hw⟩ := Int.natCast_dvd_natCast.mp h1
        rw [hw]
        exact Nat.mul_mod_right (M * D) w
      | false =>
        rw [if_pos ⟨by rw [hremlen]; omega, rfl⟩]
        cases hpadc : c.pad_samples_to_global_batch_size with
        | false =>
          rw [if_neg Bool.false_ne_true, List.length_singleton]
          rw [Nat.cast_add, Nat.cast_one]
          rw [samplerLen_ceil c (A / (M * D)) ((A % (M * D) : Nat) : Int) hg hBpos hdlc
            (hFeq _ rfl)
            (by exact_mod_cast Nat.pos_of_ne_zero hmod)
            (by rw [hBe]; exact_mod_cast Nat.mod_lt A hBDpos)]
        | true =>
          have hgs : c.global_batch_size = some c.micro_batch_times_data_parallel_size := by
            rcases hg with h | h
            · exact absurd h (hpd hpadc)
            · exact h
          rw [if_pos rfl, hgs, Option.getD_some, List.length_map, pyRange_length]
          have hdB : c.data_parallel_size ≤ c.micro_batch_times_data_parallel_size := by
            rw [SamplerConfig.micro_batch_times_data_parallel_size]
            exact le_mul_of_one_le_left hd.le (by omega)
          have hcnt : ((c.micro_batch_times_data_parallel_size - c.data_parallel_rank
              + c.micro_batch_times_data_parallel_size - 1).fdiv
              c.micro_batch_times_data_parallel_size) = 1 := by
            rw [show c.micro_batch_times_data_parallel_size - c.data_parallel_rank
                + c.micro_batch_times_data_parallel_size - 1
              = c.micro_batch_times_data_parallel_size * 1
                + (c.micro_batch_times_data_parallel_size - 1 - c.data_parallel_rank)
              by ring]
            exact fdiv_mul_add_small _ 1 _ hBpos (by omega) (by omega)
          rw [hcnt, Int.toNat_one]
          rw [Nat.cast_add, Nat.cast_one]
          rw [samplerLen_ceil c (A / (M * D)) ((A % (M * D) : Nat) : Int) hg hBpos hdlc
            (hFeq _ rfl)
            (by exact_mod_cast Nat.pos_of_ne_zero hmod)
            (by rw [hBe]; exact_mod_cast Nat.mod_lt A hBDpos)]
  · intro perm hperm hdt hdc
    have hlast0 : last_batch_size c = 0 := by
      rw [last_batch_size, Int.fmod_eq_emod _ hBpos.le]
      exact Int.emod_eq_zero_of_dvd hdt
    have hactT : active_total_samples c = c.total_samples := by
      rw [active_total_samples, hlast0]
      ring
    have hBle : c.micro_batch_times_data_parallel_size ≤ c.total_samples :=
      Int.le_of_dvd ht hdt
    have halign : (c.consumed_samples.fmod (active_total_samples c)).fmod
        c.micro_batch_times_data_parallel_size = 0 := by
      rw [hactT, Int.fmod_eq_emod _ ht.le, Int.emod_eq_of_lt hc0 hct,
        Int.fmod_eq_emod _ hBpos.le]
      exact Int.emod_eq_zero_of_dvd hdc
    have hrun := randIter_run perm c hm hd hBle halign
    obtain ⟨j, hj1, hj2, hj3⟩ := rand_geometry c hm hd hBle halign
    have hQ0 : 0 ≤ c.total_samples.fdiv c.micro_batch_times_data_parallel_size := by
      rw [Int.fdiv_eq_ediv _ hBpos.le]
      exact Int.ediv_nonneg (by omega) hBpos.le
    obtain ⟨Q, hQ⟩ := Int.eq_ofNat_of_zero_le hQ0
    have hjQ : j < Q := by rw [hQ] at hj2; exact_mod_cast hj2
    have hofft : ((c.consumed_samples.fmod (active_total_samples c)).fdiv
        c.data_parallel_size).toNat = M * j := by
      rw [hj3, hM, ← Int.natCast_mul, Int.toNat_natCast]
    rw [hofft, hMt] at hrun
    set randidx := perm ((c.consumed_samples.fdiv (active_total_samples c)).toNat)
      ((c.total_samples.fdiv c.micro_batch_times_data_parallel_size *
        c.micro_batch_size).toNat) with hridx
    set f : Int → Int := fun x => c.data_parallel_rank *
      (c.total_samples.fdiv c.micro_batch_times_data_parallel_size *
        c.micro_batch_size) + x with hf
    set L := (randidx.drop (M * j)).map f with hL
    have hbucket : (c.total_samples.fdiv c.micro_batch_times_data_parallel_size *
        c.micro_batch_size).toNat = Q * M := by
      rw [hQ, hM, ← Int.natCast_mul, Int.toNat_natCast]
    have hLlen : L.length = Q * M - M * j := by
      rw [hL, List.length_map, List.length_drop, hridx, hperm, hbucket]
    have h11 : Q * M = M * j + M * (Q - j) := by
      rw [← Nat.left_distrib, show j + (Q - j) = Q from by omega, Nat.mul_comm]
    have hLlen' : L.length = M * (Q - j) := by omega
    have hLdiv : L.length / M = Q - j := by
      rw [hLlen', Nat.mul_div_cancel_left _ hMpos]
    have hrem : chunkRem M L = [] := by
      rw [chunkRem_eq_drop M hMpos]
      apply List.drop_eq_nil_of_le
      rw [hLdiv, ← hLlen']
    have hloop := randLoop_eq M hMpos c.micro_batch_times_data_parallel_size
      c.drop_last L [] c.consumed_samples (by simpa using hMpos)
    rw [List.nil_append, hrem] at hloop
    rw [if_neg (fun hcon => hcon.1 rfl), List.append_nil] at hloop
    refine ⟨chunksOf M L, _, by rw [hrun, hloop], ?_⟩
    rw [chunksOf_length M hMpos, hLdiv]
    have hconsj : c.consumed_samples =
        c.micro_batch_times_data_parallel_size * (j : Int) := by
      rw [hactT, Int.fmod_eq_emod _ ht.le, Int.emod_eq_of_lt hc0 hct] at hj1
      exact hj1
    have htot : c.total_samples = c.micro_batch_times_data_parallel_size * (Q : Int) := by
      have h12 := Int.ediv_add_emod c.total_samples c.micro_batch_times_data_parallel_size
      have h13 : c.total_samples % c.micro_batch_times_data_parallel_size = 0 :=
        Int.emod_eq_zero_of_dvd hdt
      rw [← hQ, Int.fdiv_eq_ediv _ hBpos.le]
      omega
    apply samplerLen_exact c (Q - j) hg hBpos ?_ (by omega)
    rw [htot, hconsj, Nat.cast_sub hjQ.le]
    ring

/-- Witness for amended claim C4 at Scenario C's configuration (step unit 4
divides both `total_samples = 8` and `consumed_samples = 0`, and no
`global_batch_size` is set). -/
theorem length_matches_iteration_witness :
    ((cfgScenarioC.drop_last = true → cfgScenarioC.micro_batch_times_data_parallel_size ∣
        (cfgScenarioC.total_samples - cfgScenarioC.consumed_samples)) →
      samplerLen cfgScenarioC = ((seqIter cfgScenarioC).length : Int)) ∧
    (∀ perm : Nat → Nat → List Int, (∀ s n, (perm s n).length = n) →
      cfgScenarioC.micro_batch_times_data_parallel_size ∣ cfgScenarioC.total_samples →
      cfgScenarioC.micro_batch_times_data_parallel_size ∣ cfgScenarioC.consumed_samples →
      ∃ bs fin, randIter perm cfgScenarioC = .ok (bs, fin) ∧
        samplerLen cfgScenarioC = (bs.length : Int)) :=
  length_matches_iteration cfgScenarioC
    ⟨by decide, by decide, by decide, by decide, by decide, by decide, by decide,
      trivial, by decide⟩
    (Or.inl rfl)

end DataSamplers
